import Mathlib

/-!
Verification development for the toygrep search pipeline.

The Rust sources are shallowly embedded: bytes are `Nat`, byte buffers are
`List Nat`, the `VecDeque<usize>` of line-break indices is a `List Nat` whose
head is the deque's front (the most recently `push_front`ed element), and
asynchronous reads are modelled by explicit state passing with the pending
input of the reader threaded through.  Wall-clock `Duration` statistics are
omitted from the `ReadStats` embedding (real time is not statable).
-/

namespace Toygrep

/-- Embedding of `AsyncLineBuffer` (src/buffer/async_line_buffer.rs).
`line_break_idxs`'s head is the deque front; `consume_line` pops from the
back (`getLast?`), `fill` pushes at the front. -/
structure AsyncLineBuffer where
  buffer : List Nat
  line_break_byte : Nat
  line_break_idxs : List Nat
  start : Nat
  endPos : Nat
deriving Repr, DecidableEq

/-- `AsyncLineBufferBuilder::build` with `with_start_size_bytes`: a zeroed
backing vector of the requested size, `\n` (byte 10) as the break byte. -/
def AsyncLineBufferBuilder.build (start_size_bytes : Nat) : AsyncLineBuffer :=
  { buffer := List.replicate start_size_bytes 0
    line_break_byte := 10
    line_break_idxs := []
    start := 0
    endPos := 0 }

/-- `AsyncLineBuffer::ensure_capacity`: when the writable tail is empty, grow
the backing vector to `2 * max 1 len` (the source's `resize(grow_to, 0)`,
which here always extends since `grow_to > len`). -/
def AsyncLineBuffer.ensure_capacity (lb : AsyncLineBuffer) : AsyncLineBuffer :=
  if lb.buffer.length - lb.endPos ≠ 0 then lb
  else
    let cur_factor := max 1 lb.buffer.length
    let grow_to := cur_factor * 2
    { lb with buffer := lb.buffer ++ List.replicate (grow_to - lb.buffer.length) 0 }

/-- Positions (counted from `base`) of occurrences of the break byte in the
freshly read bytes, in ascending order.  `fill` `push_front`s these in this
order, so the deque list gains their reversal at its front. -/
def breakPositions (lbb : Nat) : List Nat → Nat → List Nat
  | [], _ => []
  | x :: xs, base =>
    if x = lbb then base :: breakPositions lbb xs (base + 1)
    else breakPositions lbb xs (base + 1)

/-- Overwrite `buf` starting at `pos` with `bytes` (the reader writing into
`writable_buffer_mut`). -/
def writeAt (buf : List Nat) (pos : Nat) (bytes : List Nat) : List Nat :=
  buf.take pos ++ bytes ++ buf.drop (pos + bytes.length)

/-- Embedding of `AsyncLineBuffer::fill`.  The reader is modelled by its
pending `input` plus `cap`, the number of bytes this particular `read` call
offers; like `Read::read` it delivers `min (cap, writable space, remaining)`
bytes and delivers 0 only at end of input (for `cap ≥ 1`).  Returns the
updated buffer, the rest of the input, and `bytes_count != 0`. -/
def AsyncLineBuffer.fill (lb : AsyncLineBuffer) (cap : Nat) (input : List Nat) :
    AsyncLineBuffer × List Nat × Bool :=
  let lb1 := lb.ensure_capacity
  let cnt := min (min cap (lb1.buffer.length - lb1.endPos)) input.length
  let bytes := input.take cnt
  let lb2 :=
    { lb1 with
      buffer := writeAt lb1.buffer lb1.endPos bytes
      line_break_idxs :=
        (breakPositions lb1.line_break_byte bytes lb1.endPos).reverse ++ lb1.line_break_idxs
      endPos := lb1.endPos + cnt }
  (lb2, input.drop cnt, decide (cnt ≠ 0))

/-- `AsyncLineBuffer::refresh`. -/
def AsyncLineBuffer.refresh (lb : AsyncLineBuffer) : AsyncLineBuffer :=
  { lb with start := 0, endPos := 0, line_break_idxs := [] }

/-- `AsyncLineBuffer::consume_line`: pop the oldest recorded break (the deque
back), return the slice `buffer[start..=pos]` and advance `start` past it. -/
def AsyncLineBuffer.consume_line (lb : AsyncLineBuffer) :
    Option (List Nat) × AsyncLineBuffer :=
  match lb.line_break_idxs.getLast? with
  | some line_break_pos =>
    let line := (lb.buffer.drop lb.start).take (line_break_pos + 1 - lb.start)
    (some line,
     { lb with start := lb.start + line.length,
               line_break_idxs := lb.line_break_idxs.dropLast })
  | none => (none, lb)

/-- `AsyncLineBuffer::consume_remaining`. -/
def AsyncLineBuffer.consume_remaining (lb : AsyncLineBuffer) :
    Option (List Nat) × AsyncLineBuffer :=
  if lb.start ≥ lb.endPos then (none, lb)
  else
    (some ((lb.buffer.drop lb.start).take (lb.endPos - lb.start)),
     { lb with start := lb.endPos })

/-- `AsyncLineBuffer::roll_to_front`: `copy_within(start..end, 0)`, shift the
recorded breaks down by `start`, reset `start` to 0. -/
def AsyncLineBuffer.roll_to_front (lb : AsyncLineBuffer) : AsyncLineBuffer :=
  if lb.start = lb.endPos then
    { lb with start := 0, endPos := 0, line_break_idxs := [] }
  else if lb.start = 0 then lb
  else
    { lb with
      buffer := (lb.buffer.drop lb.start).take (lb.endPos - lb.start) ++
        lb.buffer.drop (lb.endPos - lb.start)
      line_break_idxs := lb.line_break_idxs.map (fun idx => idx - lb.start)
      endPos := lb.endPos - lb.start
      start := 0 }

/-- `AsyncLineBuffer::has_line`. -/
def AsyncLineBuffer.has_line (lb : AsyncLineBuffer) : Bool :=
  !lb.line_break_idxs.isEmpty

/-- The unconsumed region `buffer[start..end)`. -/
def AsyncLineBuffer.extract (lb : AsyncLineBuffer) : List Nat :=
  (lb.buffer.drop lb.start).take (lb.endPos - lb.start)

/-- The structural invariant of `AsyncLineBuffer` (spec §3): cursors in
bounds, and the recorded break offsets inside `[start, end)` and strictly
decreasing front-to-back through the deque — equivalently, strictly
increasing in the order `consume_line` will pop them (back to front). -/
def AsyncLineBuffer.WF (lb : AsyncLineBuffer) : Prop :=
  lb.start ≤ lb.endPos ∧ lb.endPos ≤ lb.buffer.length ∧
  lb.line_break_idxs.Pairwise (fun a b => b < a) ∧
  ∀ i ∈ lb.line_break_idxs, lb.start ≤ i ∧ i < lb.endPos

instance (lb : AsyncLineBuffer) : Decidable lb.WF := by
  unfold AsyncLineBuffer.WF; infer_instance

namespace AsyncLineBuffer

theorem ensure_capacity_start (lb : AsyncLineBuffer) :
    lb.ensure_capacity.start = lb.start := by
  unfold ensure_capacity; split <;> rfl

theorem ensure_capacity_endPos (lb : AsyncLineBuffer) :
    lb.ensure_capacity.endPos = lb.endPos := by
  unfold ensure_capacity; split <;> rfl

theorem ensure_capacity_idxs (lb : AsyncLineBuffer) :
    lb.ensure_capacity.line_break_idxs = lb.line_break_idxs := by
  unfold ensure_capacity; split <;> rfl

theorem ensure_capacity_byte (lb : AsyncLineBuffer) :
    lb.ensure_capacity.line_break_byte = lb.line_break_byte := by
  unfold ensure_capacity; split <;> rfl

theorem ensure_capacity_length (lb : AsyncLineBuffer) :
    lb.buffer.length ≤ lb.ensure_capacity.buffer.length := by
  unfold ensure_capacity; split
  · exact le_refl _
  · simp

theorem ensure_capacity_writable (lb : AsyncLineBuffer) (h : lb.endPos ≤ lb.buffer.length) :
    lb.endPos < lb.ensure_capacity.buffer.length := by
  unfold ensure_capacity; split
  · omega
  · simp only [List.length_append, List.length_replicate]
    have hgrow : lb.buffer.length < max 1 lb.buffer.length * 2 := by
      rcases Nat.eq_zero_or_pos lb.buffer.length with h0 | h0
      · simp [h0]
      · rw [Nat.max_eq_right h0]; omega
    omega

theorem ensure_capacity_extract (lb : AsyncLineBuffer) (hs : lb.start ≤ lb.endPos)
    (h : lb.endPos ≤ lb.buffer.length) : lb.ensure_capacity.extract = lb.extract := by
  unfold ensure_capacity; split
  · rfl
  · show ((lb.buffer ++ _).drop lb.start).take (lb.endPos - lb.start) = _
    rw [List.drop_append_of_le_length (by omega),
      List.take_append_of_le_length (by simp; omega)]
    rfl

theorem ensure_capacity_WF (lb : AsyncLineBuffer) (h : lb.WF) : lb.ensure_capacity.WF := by
  obtain ⟨h1, h2, h3, h4⟩ := h
  refine ⟨?_, ?_, ?_, ?_⟩ <;>
    simp only [ensure_capacity_start, ensure_capacity_endPos, ensure_capacity_idxs]
  · exact h1
  · exact le_trans h2 (ensure_capacity_length lb)
  · exact h3
  · exact h4

theorem writeAt_length (buf bytes : List Nat) (pos : Nat)
    (h : pos + bytes.length ≤ buf.length) : (writeAt buf pos bytes).length = buf.length := by
  simp [writeAt]; omega

/-- The byte count `fill` actually reads: the min of the offered chunk, the
writable space after `ensure_capacity`, and the remaining input. -/
def numRead (lb : AsyncLineBuffer) (cap : Nat) (input : List Nat) : Nat :=
  min (min cap (lb.ensure_capacity.buffer.length - lb.endPos)) input.length

theorem fill_input (lb : AsyncLineBuffer) (cap : Nat) (input : List Nat) :
    (lb.fill cap input).2.1 = input.drop (numRead lb cap input) := by
  simp only [fill, numRead, ensure_capacity_endPos]

theorem fill_flag (lb : AsyncLineBuffer) (cap : Nat) (input : List Nat) :
    (lb.fill cap input).2.2 = decide (numRead lb cap input ≠ 0) := by
  simp only [fill, numRead, ensure_capacity_endPos]

theorem fill_start (lb : AsyncLineBuffer) (cap : Nat) (input : List Nat) :
    (lb.fill cap input).1.start = lb.start := by
  simp only [fill, ensure_capacity_start]

theorem fill_byte (lb : AsyncLineBuffer) (cap : Nat) (input : List Nat) :
    (lb.fill cap input).1.line_break_byte = lb.line_break_byte := by
  simp only [fill, ensure_capacity_byte]

theorem fill_endPos (lb : AsyncLineBuffer) (cap : Nat) (input : List Nat) :
    (lb.fill cap input).1.endPos = lb.endPos + numRead lb cap input := by
  simp only [fill, numRead, ensure_capacity_endPos]

theorem fill_idxs (lb : AsyncLineBuffer) (cap : Nat) (input : List Nat) :
    (lb.fill cap input).1.line_break_idxs =
      (breakPositions lb.line_break_byte (input.take (numRead lb cap input))
        lb.endPos).reverse ++ lb.line_break_idxs := by
  simp only [fill, numRead, ensure_capacity_endPos, ensure_capacity_idxs,
    ensure_capacity_byte]

theorem fill_buffer (lb : AsyncLineBuffer) (cap : Nat) (input : List Nat) :
    (lb.fill cap input).1.buffer =
      writeAt lb.ensure_capacity.buffer lb.endPos (input.take (numRead lb cap input)) := by
  simp only [fill, numRead, ensure_capacity_endPos]

theorem numRead_le_writable (lb : AsyncLineBuffer) (cap : Nat) (input : List Nat) :
    numRead lb cap input ≤ lb.ensure_capacity.buffer.length - lb.endPos := by
  unfold numRead; omega

theorem numRead_le_input (lb : AsyncLineBuffer) (cap : Nat) (input : List Nat) :
    numRead lb cap input ≤ input.length := by
  unfold numRead; omega

theorem numRead_pos (lb : AsyncLineBuffer) (cap : Nat) (input : List Nat)
    (hcap : 1 ≤ cap) (h : lb.endPos ≤ lb.buffer.length) (hi : input ≠ []) :
    1 ≤ numRead lb cap input := by
  have hw := ensure_capacity_writable lb h
  have : 1 ≤ input.length := by
    cases input with
    | nil => exact absurd rfl hi
    | cons a l => simp
  unfold numRead; omega

theorem numRead_eq_zero (lb : AsyncLineBuffer) (cap : Nat) (input : List Nat)
    (hcap : 1 ≤ cap) (h : lb.endPos ≤ lb.buffer.length)
    (hz : numRead lb cap input = 0) : input = [] := by
  by_contra hne
  have := numRead_pos lb cap input hcap h hne
  omega

theorem fill_buffer_length (lb : AsyncLineBuffer) (cap : Nat) (input : List Nat)
    (h : lb.endPos ≤ lb.buffer.length) :
    (lb.fill cap input).1.buffer.length = lb.ensure_capacity.buffer.length := by
  rw [fill_buffer]
  have hw := numRead_le_writable lb cap input
  have hlen : (input.take (numRead lb cap input)).length = numRead lb cap input := by
    simp [numRead_le_input]
  apply writeAt_length
  rw [hlen]
  have := ensure_capacity_length lb
  omega

theorem fill_length_mono (lb : AsyncLineBuffer) (cap : Nat) (input : List Nat)
    (h : lb.endPos ≤ lb.buffer.length) :
    lb.buffer.length ≤ (lb.fill cap input).1.buffer.length := by
  rw [fill_buffer_length lb cap input h]
  exact ensure_capacity_length lb

theorem fill_extract (lb : AsyncLineBuffer) (cap : Nat) (input : List Nat)
    (hs : lb.start ≤ lb.endPos) (h : lb.endPos ≤ lb.buffer.length) :
    (lb.fill cap input).1.extract = lb.extract ++ input.take (numRead lb cap input) := by
  have hel := ensure_capacity_length lb
  have hw := numRead_le_writable lb cap input
  have hbs : (input.take (numRead lb cap input)).length = numRead lb cap input := by
    simp [numRead_le_input]
  have hX : (lb.ensure_capacity.buffer.drop lb.start).take (lb.endPos - lb.start)
      = lb.extract := by
    have hxx := ensure_capacity_extract lb hs h
    unfold extract at hxx
    rwa [ensure_capacity_start, ensure_capacity_endPos] at hxx
  have hXlen :
      ((lb.ensure_capacity.buffer.drop lb.start).take (lb.endPos - lb.start)).length
      = lb.endPos - lb.start := by
    simp; omega
  unfold extract
  rw [fill_buffer, fill_start, fill_endPos]
  unfold writeAt
  rw [hbs, List.append_assoc]
  rw [List.drop_append_of_le_length (by rw [List.length_take]; omega)]
  rw [List.drop_take]
  rw [List.take_append_eq_append_take]
  rw [List.take_of_length_le (by rw [hXlen]; omega)]
  rw [hXlen]
  have harith : lb.endPos + numRead lb cap input - lb.start - (lb.endPos - lb.start)
      = numRead lb cap input := by omega
  rw [harith]
  rw [List.take_append_of_le_length (by rw [hbs])]
  rw [List.take_of_length_le (le_of_eq hbs)]
  rw [hX]
  rfl

theorem breakPositions_mem (lbb : Nat) :
    ∀ (bytes : List Nat) (base i : Nat), i ∈ breakPositions lbb bytes base →
      base ≤ i ∧ i < base + bytes.length := by
  intro bytes
  induction bytes with
  | nil => intro base i h; simp [breakPositions] at h
  | cons x xs ih =>
    intro base i h
    unfold breakPositions at h
    split at h
    · rcases List.mem_cons.mp h with h' | h'
      · subst h'; simp only [List.length_cons]; omega
      · have := ih (base + 1) i h'
        simp only [List.length_cons]; omega
    · have := ih (base + 1) i h
      simp only [List.length_cons]; omega

theorem breakPositions_pairwise (lbb : Nat) :
    ∀ (bytes : List Nat) (base : Nat),
      (breakPositions lbb bytes base).Pairwise (· < ·) := by
  intro bytes
  induction bytes with
  | nil => intro base; simp [breakPositions]
  | cons x xs ih =>
    intro base
    unfold breakPositions
    split
    · refine List.Pairwise.cons ?_ (ih (base + 1))
      intro i hi
      have := breakPositions_mem lbb xs (base + 1) i hi
      omega
    · exact ih (base + 1)

theorem fill_WF (lb : AsyncLineBuffer) (cap : Nat) (input : List Nat) (h : lb.WF) :
    (lb.fill cap input).1.WF := by
  obtain ⟨h1, h2, h3, h4⟩ := h
  have hw := numRead_le_writable lb cap input
  have hbl := fill_buffer_length lb cap input h2
  have hbs : (input.take (numRead lb cap input)).length = numRead lb cap input := by
    simp [numRead_le_input]
  have hel := ensure_capacity_length lb
  refine ⟨?_, ?_, ?_, ?_⟩
  · rw [fill_start, fill_endPos]; omega
  · rw [fill_endPos, hbl]; omega
  · rw [fill_idxs]
    rw [List.pairwise_append]
    refine ⟨?_, h3, ?_⟩
    · rw [List.pairwise_reverse]
      exact (breakPositions_pairwise lb.line_break_byte _ lb.endPos).imp (fun h => h)
    · intro a ha b hb
      have ha' := breakPositions_mem lb.line_break_byte _ lb.endPos a
        (List.mem_reverse.mp ha)
      have hb' := (h4 b hb).2
      omega
  · rw [fill_idxs, fill_start, fill_endPos]
    intro i hi
    rcases List.mem_append.mp hi with hi' | hi'
    · have := breakPositions_mem lb.line_break_byte _ lb.endPos i
        (List.mem_reverse.mp hi')
      rw [hbs] at this
      omega
    · have := h4 i hi'
      omega

theorem extract_length (lb : AsyncLineBuffer) (h : lb.endPos ≤ lb.buffer.length) :
    lb.extract.length = lb.endPos - lb.start := by
  unfold extract; simp; omega

theorem extract_eq_nil (lb : AsyncLineBuffer) (hs : lb.start ≤ lb.endPos)
    (h : lb.endPos ≤ lb.buffer.length) : lb.extract = [] ↔ lb.start = lb.endPos := by
  constructor
  · intro hnil
    have := extract_length lb h
    rw [hnil] at this
    simp at this
    omega
  · intro heq
    unfold extract
    rw [heq]; simp

theorem consume_line_none (lb : AsyncLineBuffer) (h : lb.line_break_idxs = []) :
    lb.consume_line = (none, lb) := by
  unfold consume_line
  rw [h]
  rfl

theorem consume_line_spec (lb : AsyncLineBuffer) (hWF : lb.WF)
    (h : lb.line_break_idxs ≠ []) :
    ∃ line lb', lb.consume_line = (some line, lb') ∧
      line ++ lb'.extract = lb.extract ∧ lb'.WF ∧ 1 ≤ line.length ∧
      lb'.buffer = lb.buffer ∧ lb'.line_break_byte = lb.line_break_byte := by
  obtain ⟨h1, h2, h3, h4⟩ := hWF
  have hlast : lb.line_break_idxs.getLast? = some (lb.line_break_idxs.getLast h) :=
    List.getLast?_eq_getLast_of_ne_nil h
  have hmem : lb.line_break_idxs.getLast h ∈ lb.line_break_idxs := List.getLast_mem h
  have hb := h4 _ hmem
  have hlen : ((lb.buffer.drop lb.start).take
      (lb.line_break_idxs.getLast h + 1 - lb.start)).length
      = lb.line_break_idxs.getLast h + 1 - lb.start := by
    simp; omega
  have hgtpos : ∀ i ∈ lb.line_break_idxs.dropLast, lb.line_break_idxs.getLast h < i := by
    intro i hi
    have hsplit : lb.line_break_idxs.dropLast ++ [lb.line_break_idxs.getLast h] =
        lb.line_break_idxs := List.dropLast_append_getLast h
    have hpw := h3
    rw [← hsplit, List.pairwise_append] at hpw
    exact hpw.2.2 i hi _ (by simp)
  refine ⟨(lb.buffer.drop lb.start).take (lb.line_break_idxs.getLast h + 1 - lb.start),
    { lb with
        start := lb.start + ((lb.buffer.drop lb.start).take
          (lb.line_break_idxs.getLast h + 1 - lb.start)).length
        line_break_idxs := lb.line_break_idxs.dropLast }, ?_, ?_, ?_, ?_, rfl, rfl⟩
  · unfold consume_line
    rw [hlast]
  · show _ ++ ({ lb with
        start := lb.start + _, line_break_idxs := _ } : AsyncLineBuffer).extract = _
    unfold extract
    simp only
    rw [hlen]
    have hstep : lb.start + (lb.line_break_idxs.getLast h + 1 - lb.start)
        = lb.line_break_idxs.getLast h + 1 := by omega
    rw [hstep]
    conv_rhs => rw [← List.take_append_drop (lb.line_break_idxs.getLast h + 1 - lb.start)
      ((lb.buffer.drop lb.start).take (lb.endPos - lb.start))]
    congr 1
    · rw [List.take_take, Nat.min_def]
      split <;> [rfl; omega]
    · rw [List.drop_take, List.drop_drop]
      congr 1
      · omega
      · congr 1
        omega
  · refine ⟨?_, h2, h3.sublist (List.dropLast_sublist _), ?_⟩
    · show lb.start + _ ≤ lb.endPos
      rw [hlen]; omega
    · intro i hi
      have hi' : i ∈ lb.line_break_idxs := (List.dropLast_sublist _).mem hi
      have hbi := h4 i hi'
      have hgt := hgtpos i hi
      constructor
      · show lb.start + _ ≤ i
        rw [hlen]; omega
      · exact hbi.2
  · rw [hlen]; omega

theorem consume_remaining_none (lb : AsyncLineBuffer) (h : lb.endPos ≤ lb.start) :
    lb.consume_remaining = (none, lb) := by
  unfold consume_remaining
  rw [if_pos h]

theorem consume_remaining_some (lb : AsyncLineBuffer) (h : lb.start < lb.endPos) :
    lb.consume_remaining = (some lb.extract, { lb with start := lb.endPos }) := by
  unfold consume_remaining extract
  rw [if_neg (by omega)]

theorem consume_remaining_some_WF (lb : AsyncLineBuffer) (hWF : lb.WF)
    (hidx : lb.line_break_idxs = []) :
    ({ lb with start := lb.endPos } : AsyncLineBuffer).extract = [] ∧
    ({ lb with start := lb.endPos } : AsyncLineBuffer).WF := by
  obtain ⟨h1, h2, h3, h4⟩ := hWF
  constructor
  · unfold extract; simp
  · refine ⟨le_refl _, h2, h3, ?_⟩
    intro i hi
    simp only [hidx] at hi
    simp at hi

theorem refresh_WF (lb : AsyncLineBuffer) : lb.refresh.WF := by
  refine ⟨by simp [refresh], by simp [refresh], by simp [refresh], ?_⟩
  intro i hi
  simp [refresh] at hi

theorem roll_to_front_fields (lb : AsyncLineBuffer) :
    lb.roll_to_front.line_break_byte = lb.line_break_byte := by
  unfold roll_to_front
  split <;> [rfl; skip]
  split <;> rfl

theorem roll_to_front_length (lb : AsyncLineBuffer) (hs : lb.start ≤ lb.endPos)
    (h : lb.endPos ≤ lb.buffer.length) :
    lb.roll_to_front.buffer.length = lb.buffer.length := by
  unfold roll_to_front
  split
  · rfl
  · split
    · rfl
    · simp; omega

theorem roll_to_front_extract (lb : AsyncLineBuffer) (hs : lb.start ≤ lb.endPos)
    (h : lb.endPos ≤ lb.buffer.length) :
    lb.roll_to_front.extract = lb.extract := by
  unfold roll_to_front
  split
  · rename_i heq
    unfold extract
    rw [heq]
    simp
  · split
    · rfl
    · rename_i hne h0
      unfold extract
      simp only
      rw [Nat.sub_zero, List.drop_zero]
      rw [List.take_append_of_le_length (by simp; omega)]
      simp [List.take_take]

theorem roll_to_front_WF (lb : AsyncLineBuffer) (hWF : lb.WF) :
    lb.roll_to_front.WF := by
  obtain ⟨h1, h2, h3, h4⟩ := hWF
  unfold roll_to_front
  split
  · exact ⟨by simp, by simp, by simp, by intro i hi; simp at hi⟩
  · split
    · exact ⟨h1, h2, h3, h4⟩
    · rename_i hne h0
      refine ⟨by simp, by simp; omega, ?_, ?_⟩
      · simp only
        rw [List.pairwise_map]
        refine h3.imp_of_mem ?_
        intro a b ha hb hab
        have hba := h4 a ha
        have hbb := h4 b hb
        omega
      · intro i hi
        simp only [List.mem_map] at hi
        obtain ⟨j, hj, rfl⟩ := hi
        have := h4 j hj
        dsimp only
        omega

theorem roll_to_front_idxs_nil (lb : AsyncLineBuffer) (h : lb.line_break_idxs = []) :
    lb.roll_to_front.line_break_idxs = [] := by
  unfold roll_to_front
  split
  · rfl
  · split
    · exact h
    · simp [h]

theorem idxs_nil_of_extract_nil (lb : AsyncLineBuffer) (hWF : lb.WF)
    (h : lb.extract = []) : lb.line_break_idxs = [] := by
  obtain ⟨h1, h2, h3, h4⟩ := hWF
  have hse : lb.start = lb.endPos := (extract_eq_nil lb h1 h2).mp h
  cases hidx : lb.line_break_idxs with
  | nil => rfl
  | cons x xs =>
    have := h4 x (by rw [hidx]; simp)
    omega

end AsyncLineBuffer

/-- The line text paired with the 1-based line number `read_line` attaches
(models `LineResult` of src/buffer/async_line_buffer.rs). -/
structure LineResult where
  line_num : Nat
  text : List Nat
deriving Repr, DecidableEq

/-- Embedding of `AsyncLineBufferReader`: the wrapped `AsyncLineBuffer`, the
bytes the underlying reader has not yet delivered, and `sched i` giving the
chunk size the reader offers on its i-th `read` call (so every partition of
the source into read chunks is represented by some `sched`). -/
structure AsyncLineBufferReader where
  line_buffer : AsyncLineBuffer
  input : List Nat
  sched : Nat → Nat
  reads : Nat
  lines_read : Nat

namespace AsyncLineBufferReader

/-- The state after the `roll_to_front`/`fill` pair inside `read_line`'s
loop. -/
def after_fill (st : AsyncLineBufferReader) : AsyncLineBufferReader :=
  { st with
      line_buffer := ((st.line_buffer.roll_to_front).fill (st.sched st.reads) st.input).1
      input := ((st.line_buffer.roll_to_front).fill (st.sched st.reads) st.input).2.1
      reads := st.reads + 1 }

/-- The loop of `AsyncLineBufferReader::read_line`: while no full line is
buffered, `roll_to_front` then `fill`; when `fill` reads nothing the source is
exhausted and the trailing partial line comes from `consume_remaining`;
otherwise pop a full line with `consume_line`.  `fuel` only bounds the
recursion; `input.length + 1` always suffices. -/
def read_line_loop :
    Nat → AsyncLineBufferReader → Option (List Nat) × AsyncLineBufferReader
  | 0, st => (none, st)
  | fuel + 1, st =>
    if st.line_buffer.has_line then
      ((st.line_buffer.consume_line).1,
       { st with line_buffer := (st.line_buffer.consume_line).2 })
    else
      if ((st.line_buffer.roll_to_front).fill (st.sched st.reads) st.input).2.2 then
        read_line_loop fuel (after_fill st)
      else
        (((after_fill st).line_buffer.consume_remaining).1,
         { after_fill st with
             line_buffer := ((after_fill st).line_buffer.consume_remaining).2 })

/-- `AsyncLineBufferReader::read_line`: bump `lines_read`, run the fill loop,
attach the line number. -/
def read_line (st : AsyncLineBufferReader) :
    Option LineResult × AsyncLineBufferReader :=
  let st1 := { st with lines_read := st.lines_read + 1 }
  let r := read_line_loop (st1.input.length + 1) st1
  (r.1.map (fun l => ⟨st1.lines_read, l⟩), r.2)

/-- Drain the reader by calling `read_line` until it returns `none` (the
read-loop protocol of spec §4.1 and of `Searcher::search_via_reader`). -/
def read_all_loop :
    Nat → AsyncLineBufferReader → List LineResult × AsyncLineBufferReader
  | 0, st => ([], st)
  | fuel + 1, st =>
    match (st.read_line).1 with
    | none => ([], (st.read_line).2)
    | some lr =>
      (lr :: (read_all_loop fuel (st.read_line).2).1,
       (read_all_loop fuel (st.read_line).2).2)

def read_all (st : AsyncLineBufferReader) :
    List LineResult × AsyncLineBufferReader :=
  read_all_loop (st.input.length + st.line_buffer.extract.length + 1) st

def iterate_read_line : Nat → AsyncLineBufferReader → AsyncLineBufferReader
  | 0, st => st
  | k + 1, st => iterate_read_line k (st.read_line).2

/-- Every `read` call of the modelled reader offers at least one byte, as a
real reader does (`read` returning 0 means end of input). -/
def SchedOK (st : AsyncLineBufferReader) : Prop := ∀ i, 1 ≤ st.sched i

/-- Terminal state: nothing buffered and nothing left in the source. -/
def ExhaustedState (st : AsyncLineBufferReader) : Prop :=
  st.line_buffer.WF ∧ st.line_buffer.extract = [] ∧ st.input = [] ∧ SchedOK st

theorem read_line_loop_spec :
    ∀ (fuel : Nat) (st : AsyncLineBufferReader), st.line_buffer.WF →
      (∀ i, 1 ≤ st.sched i) → st.input.length < fuel →
      (∀ l st', read_line_loop fuel st = (some l, st') →
        st'.line_buffer.WF ∧ st'.sched = st.sched ∧ 1 ≤ l.length ∧
        l ++ st'.line_buffer.extract ++ st'.input =
          st.line_buffer.extract ++ st.input) ∧
      (∀ st', read_line_loop fuel st = (none, st') →
        st'.line_buffer.WF ∧ st'.sched = st.sched ∧
        st.line_buffer.extract = [] ∧ st.input = [] ∧
        st'.line_buffer.extract = [] ∧ st'.input = []) := by
  intro fuel
  induction fuel with
  | zero => intro st _ _ hlt; omega
  | succ fuel ih =>
    intro st hWF hsched hlt
    by_cases hline : st.line_buffer.has_line
    · -- a full line is buffered: consume_line pops it
      have hne : st.line_buffer.line_break_idxs ≠ [] := by
        simpa [AsyncLineBuffer.has_line, List.isEmpty_iff] using hline
      obtain ⟨line, lb', hcl, hext, hWF', hlen, _, _⟩ :=
        AsyncLineBuffer.consume_line_spec st.line_buffer hWF hne
      have hstep : read_line_loop (fuel + 1) st =
          (some line, { st with line_buffer := lb' }) := by
        unfold read_line_loop
        rw [if_pos hline, hcl]
      constructor
      · intro l st' heq
        rw [hstep] at heq
        simp only [Prod.mk.injEq, Option.some.injEq] at heq
        obtain ⟨rfl, rfl⟩ := heq
        refine ⟨hWF', rfl, hlen, ?_⟩
        show line ++ lb'.extract ++ st.input = _
        rw [hext]
      · intro st' heq
        rw [hstep] at heq
        simp at heq
    · -- no full line: roll_to_front then fill
      have hidxnil : st.line_buffer.line_break_idxs = [] := by
        simpa [AsyncLineBuffer.has_line, List.isEmpty_iff] using hline
      have hWFr : st.line_buffer.roll_to_front.WF :=
        AsyncLineBuffer.roll_to_front_WF _ hWF
      have hextr : st.line_buffer.roll_to_front.extract = st.line_buffer.extract :=
        AsyncLineBuffer.roll_to_front_extract _ hWF.1 hWF.2.1
      have hidxr : st.line_buffer.roll_to_front.line_break_idxs = [] :=
        AsyncLineBuffer.roll_to_front_idxs_nil _ hidxnil
      have hcap1 : 1 ≤ st.sched st.reads := hsched st.reads
      have hWF2 : (after_fill st).line_buffer.WF :=
        AsyncLineBuffer.fill_WF _ _ _ hWFr
      have hext2 : (after_fill st).line_buffer.extract =
          st.line_buffer.extract ++
            st.input.take (AsyncLineBuffer.numRead st.line_buffer.roll_to_front
              (st.sched st.reads) st.input) := by
        show ((st.line_buffer.roll_to_front).fill (st.sched st.reads) st.input).1.extract = _
        rw [AsyncLineBuffer.fill_extract _ _ _ hWFr.1 hWFr.2.1, hextr]
      have hinp2 : (after_fill st).input =
          st.input.drop (AsyncLineBuffer.numRead st.line_buffer.roll_to_front
            (st.sched st.reads) st.input) :=
        AsyncLineBuffer.fill_input _ _ _
      have hflag : ((st.line_buffer.roll_to_front).fill (st.sched st.reads) st.input).2.2 =
          decide (AsyncLineBuffer.numRead st.line_buffer.roll_to_front
            (st.sched st.reads) st.input ≠ 0) :=
        AsyncLineBuffer.fill_flag _ _ _
      by_cases hzero : AsyncLineBuffer.numRead st.line_buffer.roll_to_front
          (st.sched st.reads) st.input = 0
      · -- fill read nothing: the source is exhausted; consume_remaining
        have hinputnil : st.input = [] :=
          AsyncLineBuffer.numRead_eq_zero _ _ _ hcap1 hWFr.2.1 hzero
        have hext2' : (after_fill st).line_buffer.extract = st.line_buffer.extract := by
          rw [hext2, hzero]
          simp
        have hinp2' : (after_fill st).input = [] := by
          rw [hinp2, hinputnil]
          simp
        have hidx2 : (after_fill st).line_buffer.line_break_idxs = [] := by
          show ((st.line_buffer.roll_to_front).fill (st.sched st.reads) st.input).1.line_break_idxs = []
          rw [AsyncLineBuffer.fill_idxs, hzero, hidxr]
          simp [breakPositions]
        have hstep : read_line_loop (fuel + 1) st =
            (((after_fill st).line_buffer.consume_remaining).1,
             { after_fill st with
                 line_buffer := ((after_fill st).line_buffer.consume_remaining).2 }) := by
          unfold read_line_loop
          rw [if_neg hline, hflag]
          simp [hzero]
        by_cases hemp : (after_fill st).line_buffer.extract = []
        · -- nothing buffered either: read_line yields none
          have hse : (after_fill st).line_buffer.start = (after_fill st).line_buffer.endPos :=
            (AsyncLineBuffer.extract_eq_nil _ hWF2.1 hWF2.2.1).mp hemp
          have hcr : (after_fill st).line_buffer.consume_remaining =
              (none, (after_fill st).line_buffer) :=
            AsyncLineBuffer.consume_remaining_none _ (le_of_eq hse.symm)
          rw [hcr] at hstep
          constructor
          · intro l st' heq
            rw [hstep] at heq
            simp at heq
          · intro st' heq
            rw [hstep] at heq
            simp only [Prod.mk.injEq] at heq
            obtain ⟨-, rfl⟩ := heq
            refine ⟨hWF2, rfl, ?_, hinputnil, hemp, hinp2'⟩
            rw [← hext2', hemp]
        · -- a trailing partial line remains: consume_remaining returns it
          have hlt2 : (after_fill st).line_buffer.start < (after_fill st).line_buffer.endPos := by
            rcases Nat.lt_or_ge (after_fill st).line_buffer.start
              (after_fill st).line_buffer.endPos with h | h
            · exact h
            · exfalso
              apply hemp
              have hse : (after_fill st).line_buffer.start = (after_fill st).line_buffer.endPos := by
                have := hWF2.1
                omega
              exact (AsyncLineBuffer.extract_eq_nil _ hWF2.1 hWF2.2.1).mpr hse
          have hcr := AsyncLineBuffer.consume_remaining_some _ hlt2
          obtain ⟨hempty', hWF'⟩ :=
            AsyncLineBuffer.consume_remaining_some_WF _ hWF2 hidx2
          rw [hcr] at hstep
          constructor
          · intro l st' heq
            rw [hstep] at heq
            simp only [Prod.mk.injEq, Option.some.injEq] at heq
            obtain ⟨rfl, rfl⟩ := heq
            refine ⟨hWF', rfl, ?_, ?_⟩
            · have hlen := AsyncLineBuffer.extract_length (after_fill st).line_buffer hWF2.2.1
              have : (after_fill st).line_buffer.extract.length ≠ 0 := by
                intro hc
                exact hemp (List.eq_nil_of_length_eq_zero hc)
              omega
            · show (after_fill st).line_buffer.extract ++ _ ++ _ = _
              rw [hempty', hinp2', hext2', hinputnil]
              simp
          · intro st' heq
            rw [hstep] at heq
            simp at heq
      · -- fill read at least one byte: loop again
        have hstep : read_line_loop (fuel + 1) st = read_line_loop fuel (after_fill st) := by
          conv_lhs => rw [read_line_loop]
          rw [if_neg hline, hflag]
          simp [hzero]
        have hcntle : AsyncLineBuffer.numRead st.line_buffer.roll_to_front
            (st.sched st.reads) st.input ≤ st.input.length :=
          AsyncLineBuffer.numRead_le_input _ _ _
        have hlt2 : (after_fill st).input.length < fuel := by
          rw [hinp2]
          simp only [List.length_drop]
          omega
        have ihs := ih (after_fill st) hWF2 (fun i => hsched i) hlt2
        have htad : st.input.take (AsyncLineBuffer.numRead st.line_buffer.roll_to_front
              (st.sched st.reads) st.input) ++
            st.input.drop (AsyncLineBuffer.numRead st.line_buffer.roll_to_front
              (st.sched st.reads) st.input) = st.input :=
          List.take_append_drop _ _
        constructor
        · intro l st' heq
          rw [hstep] at heq
          obtain ⟨hw, hsch, hl, heqn⟩ := ihs.1 l st' heq
          refine ⟨hw, hsch, hl, ?_⟩
          rw [heqn, hext2, hinp2, List.append_assoc, htad]
        · intro st' heq
          rw [hstep] at heq
          obtain ⟨-, -, hx, -, -, -⟩ := ihs.2 st' heq
          exfalso
          rw [hext2] at hx
          have : (st.input.take (AsyncLineBuffer.numRead st.line_buffer.roll_to_front
              (st.sched st.reads) st.input)).length = 0 := by
            rcases List.append_eq_nil.mp hx with ⟨-, hnil⟩
            rw [hnil]; rfl
          rw [List.length_take] at this
          omega

theorem read_line_eq (st : AsyncLineBufferReader) : st.read_line =
    ((read_line_loop (st.input.length + 1) { st with lines_read := st.lines_read + 1 }).1.map
      (fun l => (⟨st.lines_read + 1, l⟩ : LineResult)),
     (read_line_loop (st.input.length + 1) { st with lines_read := st.lines_read + 1 }).2) :=
  rfl

theorem read_line_spec (st : AsyncLineBufferReader) (hWF : st.line_buffer.WF)
    (hsched : ∀ i, 1 ≤ st.sched i) :
    (∀ lr st', st.read_line = (some lr, st') →
      st'.line_buffer.WF ∧ st'.sched = st.sched ∧ 1 ≤ lr.text.length ∧
      lr.text ++ st'.line_buffer.extract ++ st'.input =
        st.line_buffer.extract ++ st.input) ∧
    (∀ st', st.read_line = (none, st') →
      st'.line_buffer.WF ∧ st'.sched = st.sched ∧
      st.line_buffer.extract = [] ∧ st.input = [] ∧
      st'.line_buffer.extract = [] ∧ st'.input = []) := by
  have hspec := read_line_loop_spec (st.input.length + 1)
    { st with lines_read := st.lines_read + 1 } hWF hsched (by simp)
  constructor
  · intro lr st' heq
    rw [read_line_eq] at heq
    rcases hres : read_line_loop (st.input.length + 1)
        { st with lines_read := st.lines_read + 1 } with ⟨o, s2⟩
    rw [hres] at heq
    cases o with
    | none => simp at heq
    | some l =>
      simp only [Option.map_some', Prod.mk.injEq, Option.some.injEq] at heq
      obtain ⟨hlr, rfl⟩ := heq
      obtain ⟨hw, hsch, hlen, heqn⟩ := hspec.1 l s2 hres
      rw [← hlr]
      exact ⟨hw, hsch, hlen, heqn⟩
  · intro st' heq
    rw [read_line_eq] at heq
    rcases hres : read_line_loop (st.input.length + 1)
        { st with lines_read := st.lines_read + 1 } with ⟨o, s2⟩
    rw [hres] at heq
    cases o with
    | some l => simp at heq
    | none =>
      simp only [Option.map_none', Prod.mk.injEq] at heq
      obtain ⟨-, rfl⟩ := heq
      exact hspec.2 s2 hres

theorem read_line_exhausted (st : AsyncLineBufferReader) (h : ExhaustedState st) :
    (st.read_line).1 = none ∧ ExhaustedState (st.read_line).2 := by
  obtain ⟨hWF, hext, hinp, hsched⟩ := h
  have hspec := read_line_spec st hWF hsched
  rcases hres : st.read_line with ⟨o, s2⟩
  cases o with
  | some lr =>
    obtain ⟨-, -, hlen, heqn⟩ := hspec.1 lr s2 hres
    rw [hext, hinp] at heqn
    simp only [List.append_nil, List.append_eq_nil] at heqn
    rw [heqn.1.1] at hlen
    simp at hlen
  | none =>
    obtain ⟨hw, hsch, -, -, he2, hi2⟩ := hspec.2 s2 hres
    refine ⟨rfl, ?_⟩
    refine ⟨hw, he2, hi2, ?_⟩
    intro i
    rw [show s2.sched = st.sched from hsch]
    exact hsched i

theorem iterate_exhausted (k : Nat) :
    ∀ st, ExhaustedState st →
      (((iterate_read_line k st)).read_line).1 = none ∧
      ExhaustedState (iterate_read_line k st) := by
  induction k with
  | zero => intro st h; exact ⟨(read_line_exhausted st h).1, h⟩
  | succ k ih =>
    intro st h
    have h1 := read_line_exhausted st h
    have h2 := ih (st.read_line).2 h1.2
    simpa [iterate_read_line] using h2

theorem read_all_loop_spec :
    ∀ (fuel : Nat) (st : AsyncLineBufferReader), st.line_buffer.WF →
      (∀ i, 1 ≤ st.sched i) →
      st.input.length + st.line_buffer.extract.length < fuel →
      (((read_all_loop fuel st).1.map LineResult.text).flatten =
        st.line_buffer.extract ++ st.input) ∧
      ExhaustedState (read_all_loop fuel st).2 := by
  intro fuel
  induction fuel with
  | zero => intro st _ _ h; omega
  | succ fuel ih =>
    intro st hWF hsched hlt
    have hspec := read_line_spec st hWF hsched
    rcases hres : st.read_line with ⟨o, s2⟩
    cases o with
    | none =>
      obtain ⟨hw, hsch, he1, hi1, he2, hi2⟩ := hspec.2 s2 hres
      have hstep : read_all_loop (fuel + 1) st = ([], s2) := by
        conv_lhs => rw [read_all_loop]
        rw [hres]
      rw [hstep]
      constructor
      · rw [he1, hi1]; rfl
      · refine ⟨hw, he2, hi2, ?_⟩
        intro i
        rw [show s2.sched = st.sched from hsch]
        exact hsched i
    | some lr =>
      obtain ⟨hw, hsch, hlen, heqn⟩ := hspec.1 lr s2 hres
      have hsched2 : ∀ i, 1 ≤ s2.sched i := by
        intro i
        rw [show s2.sched = st.sched from hsch]
        exact hsched i
      have hmeas : s2.input.length + s2.line_buffer.extract.length < fuel := by
        have hL := congrArg List.length heqn
        simp only [List.length_append] at hL
        omega
      have ihres := ih s2 hw hsched2 hmeas
      have hstep : read_all_loop (fuel + 1) st =
          (lr :: (read_all_loop fuel s2).1, (read_all_loop fuel s2).2) := by
        conv_lhs => rw [read_all_loop]
        rw [hres]
      rw [hstep]
      refine ⟨?_, ihres.2⟩
      simp only [List.map_cons, List.flatten_cons]
      rw [ihres.1, ← List.append_assoc]
      exact heqn

theorem read_all_spec (st : AsyncLineBufferReader) (hWF : st.line_buffer.WF)
    (hsched : ∀ i, 1 ≤ st.sched i) :
    (((st.read_all).1.map LineResult.text).flatten =
      st.line_buffer.extract ++ st.input) ∧
    ExhaustedState (st.read_all).2 :=
  read_all_loop_spec _ st hWF hsched (by omega)

end AsyncLineBufferReader

/-- A freshly constructed reader over a source: a zeroed buffer of the given
initial capacity wrapping the pending input (models
`AsyncLineBufferReader::new(reader, builder.with_start_size_bytes(c).build())`). -/
def initialReader (capacity : Nat) (input : List Nat) (sched : Nat → Nat) :
    AsyncLineBufferReader :=
  { line_buffer := AsyncLineBufferBuilder.build capacity
    input := input
    sched := sched
    reads := 0
    lines_read := 0 }

theorem build_WF (capacity : Nat) : (AsyncLineBufferBuilder.build capacity).WF := by
  refine ⟨le_refl _, by simp [AsyncLineBufferBuilder.build], by simp [AsyncLineBufferBuilder.build], ?_⟩
  intro i hi
  simp [AsyncLineBufferBuilder.build] at hi

theorem build_extract (capacity : Nat) :
    (AsyncLineBufferBuilder.build capacity).extract = [] := by
  simp [AsyncLineBufferBuilder.build, AsyncLineBuffer.extract]

theorem consume_line_preserves_WF (lb : AsyncLineBuffer) (h : lb.WF) :
    (lb.consume_line).2.WF ∧ (lb.consume_line).2.buffer = lb.buffer := by
  by_cases hn : lb.line_break_idxs = []
  · rw [AsyncLineBuffer.consume_line_none lb hn]
    exact ⟨h, rfl⟩
  · obtain ⟨line, lb', hcl, -, hWF', -, hbuf, -⟩ :=
      AsyncLineBuffer.consume_line_spec lb h hn
    rw [hcl]
    exact ⟨hWF', hbuf⟩

theorem consume_remaining_buffer (lb : AsyncLineBuffer) :
    (lb.consume_remaining).2.buffer = lb.buffer := by
  unfold AsyncLineBuffer.consume_remaining
  split <;> rfl

theorem consume_remaining_preserves_WF (lb : AsyncLineBuffer) (h : lb.WF)
    (hn : lb.line_break_idxs = []) : (lb.consume_remaining).2.WF := by
  by_cases hlt : lb.start < lb.endPos
  · rw [AsyncLineBuffer.consume_remaining_some lb hlt]
    exact (AsyncLineBuffer.consume_remaining_some_WF lb h hn).2
  · rw [AsyncLineBuffer.consume_remaining_none lb (by omega)]
    exact h

/-- C9: every AsyncLineBuffer operation preserves the structural invariant
(`0 ≤ start ≤ end ≤ len`, break offsets strictly increasing in consumption
order and inside `[start, end)`) and never shrinks the backing buffer — as
claimed this fails for `consume_remaining`, which does not clear recorded
break offsets; this closed counterexample exhibits a well-formed buffer
(`"\na"` fully buffered, break recorded at 0) that `consume_remaining` drives
out of the invariant: the stale offset 0 falls below the new `start`. -/
theorem c9_counterexample_consume_remaining :
    (⟨[10, 97], 10, [0], 0, 2⟩ : AsyncLineBuffer).WF ∧
    ¬ ((⟨[10, 97], 10, [0], 0, 2⟩ : AsyncLineBuffer).consume_remaining).2.WF := by
  decide

/-- C9 (amended): `refresh`, `ensure_capacity`, `roll_to_front`,
`consume_line` and `fill` preserve the invariant unconditionally;
`consume_remaining` preserves it provided no break offsets are recorded —
the only state in which the read protocol invokes it (it is called just
after `fill` reported end of input while `has_line` was false); and no
operation ever shrinks the backing buffer. -/
theorem c9_ops_preserve_invariant (lb : AsyncLineBuffer) (h : lb.WF) :
    (lb.refresh.WF ∧ lb.ensure_capacity.WF ∧ lb.roll_to_front.WF ∧
      (lb.consume_line).2.WF ∧
      (lb.line_break_idxs = [] → (lb.consume_remaining).2.WF) ∧
      (∀ cap input, (lb.fill cap input).1.WF)) ∧
    (lb.buffer.length ≤ lb.refresh.buffer.length ∧
      lb.buffer.length ≤ lb.ensure_capacity.buffer.length ∧
      lb.buffer.length ≤ lb.roll_to_front.buffer.length ∧
      lb.buffer.length ≤ (lb.consume_line).2.buffer.length ∧
      lb.buffer.length ≤ (lb.consume_remaining).2.buffer.length ∧
      ∀ cap input, lb.buffer.length ≤ (lb.fill cap input).1.buffer.length) := by
  refine ⟨⟨AsyncLineBuffer.refresh_WF lb, AsyncLineBuffer.ensure_capacity_WF lb h,
      AsyncLineBuffer.roll_to_front_WF lb h, (consume_line_preserves_WF lb h).1,
      fun hn => consume_remaining_preserves_WF lb h hn,
      fun cap input => AsyncLineBuffer.fill_WF lb cap input h⟩,
    le_refl _, AsyncLineBuffer.ensure_capacity_length lb,
    le_of_eq (AsyncLineBuffer.roll_to_front_length lb h.1 h.2.1).symm,
    le_of_eq (congrArg List.length (consume_line_preserves_WF lb h).2).symm,
    le_of_eq (congrArg List.length (consume_remaining_buffer lb)).symm,
    fun cap input => AsyncLineBuffer.fill_length_mono lb cap input h.2.1⟩

/-- C9 witness: the amended preservation theorem applied to a concrete
well-formed buffer. -/
theorem c9_ops_preserve_invariant_witness :
    (AsyncLineBufferBuilder.build 4).WF ∧
    (AsyncLineBufferBuilder.build 4).roll_to_front.WF ∧
    (AsyncLineBufferBuilder.build 4).buffer.length ≤
      (AsyncLineBufferBuilder.build 4).ensure_capacity.buffer.length :=
  ⟨by decide,
   (c9_ops_preserve_invariant (AsyncLineBufferBuilder.build 4) (by decide)).1.2.2.1,
   (c9_ops_preserve_invariant (AsyncLineBufferBuilder.build 4) (by decide)).2.2.1⟩

/-- C1: for every byte sequence, every initial buffer capacity (including one
smaller than the first line) and every partition of the source into read
chunks (any `sched` offering at least one byte per read), the concatenation
of all line slices returned by `read_line` — full lines via `consume_line`
plus the trailing unterminated slice via `consume_remaining` once the source
is exhausted — equals the original byte sequence exactly, and afterwards
every further `read_line` returns `none`. -/
theorem c1_read_line_lossless_round_trip (input : List Nat) (capacity : Nat)
    (sched : Nat → Nat) (hsched : ∀ i, 1 ≤ sched i) :
    ((((initialReader capacity input sched).read_all).1.map LineResult.text).flatten
      = input) ∧
    ∀ k, ((AsyncLineBufferReader.iterate_read_line k
      ((initialReader capacity input sched).read_all).2).read_line).1 = none := by
  have h1 := AsyncLineBufferReader.read_all_spec (initialReader capacity input sched)
    (build_WF capacity) hsched
  constructor
  · rw [h1.1]
    show (AsyncLineBufferBuilder.build capacity).extract ++ input = input
    rw [build_extract]
    rfl
  · intro k
    exact (AsyncLineBufferReader.iterate_exhausted k _ h1.2).1

/-- C1 witness: the round-trip theorem applied to the concrete source
`"hi\n!"` with initial capacity 2 and 3-byte read chunks. -/
theorem c1_read_line_lossless_round_trip_witness :
    (∀ i : Nat, 1 ≤ (fun _ => 3 : Nat → Nat) i) ∧
    ((((initialReader 2 [104, 105, 10, 33] (fun _ => 3)).read_all).1.map
      LineResult.text).flatten = [104, 105, 10, 33]) :=
  ⟨fun _ => by simp,
   (c1_read_line_lossless_round_trip [104, 105, 10, 33] 2 (fun _ => 3)
     (fun _ => by simp)).1⟩

/-! ### Matcher (src/matcher.rs) -/

/-- `Match` (src/matcher.rs): one pattern occurrence, `m.start()`/`m.end()`
of the regex crate's match. -/
structure Match where
  start : Nat
  stop : Nat
deriving Repr, DecidableEq

/-- `DummyMatcher::is_match`: never matches. -/
def DummyMatcher.is_match (_bytes : List Nat) : Bool := false

/-- `DummyMatcher::find_matches`: no matches. -/
def DummyMatcher.find_matches (_bytes : List Nat) : List Match := []

/-- The capability `RegexMatcher` wraps: `regex::bytes::Regex` of the
external regex crate, abstracted by its `find_at` primitive (the leftmost
match beginning at or after a position). -/
structure RegexEngine where
  find_at : List Nat → Nat → Option (Nat × Nat)

/-- What the regex crate's API guarantees about `find_at`: a returned match
starts at or after the search position and lies inside the haystack.  Empty
matches (`start = end`) are allowed — e.g. `Regex::new("")` matches the empty
string at every position. -/
def RegexEngine.WellFormed (eng : RegexEngine) : Prop :=
  ∀ b p s e, eng.find_at b p = some (s, e) → p ≤ s ∧ s ≤ e ∧ e ≤ b.length

/-- `Matches::next` of the regex crate, driving `Regex::find_iter`: repeated
`find_at` from `last_end`; an empty match advances the search position by one
and is skipped if it ends exactly where the previous yielded match ended.
With a well-formed engine the position grows every step, so fuel
`len + 2` suffices. -/
def matchesLoop (eng : RegexEngine) (b : List Nat) :
    Nat → Nat → Option Nat → List Match
  | 0, _, _ => []
  | fuel + 1, last_end, last_match =>
    match eng.find_at b last_end with
    | none => []
    | some (s, e) =>
      if s = e then
        if some e = last_match then matchesLoop eng b fuel (e + 1) last_match
        else ⟨s, e⟩ :: matchesLoop eng b fuel (e + 1) (some e)
      else ⟨s, e⟩ :: matchesLoop eng b fuel e (some e)

/-- `RegexMatcher::find_matches`: `regex.find_iter(bytes)` collected, each
item mapped to `Match { start, stop }`. -/
def RegexMatcher.find_matches (eng : RegexEngine) (b : List Nat) : List Match :=
  matchesLoop eng b (b.length + 2) 0 none

/-- `RegexMatcher::is_match`: `regex.is_match(bytes)`, i.e. some match exists
searching from position 0. -/
def RegexMatcher.is_match (eng : RegexEngine) (b : List Nat) : Bool :=
  (eng.find_at b 0).isSome

theorem matchesLoop_spec (eng : RegexEngine) (hwf : eng.WellFormed) (b : List Nat) :
    ∀ (fuel p : Nat) (lm : Option Nat),
      (∀ m ∈ matchesLoop eng b fuel p lm,
        p ≤ m.start ∧ m.start ≤ m.stop ∧ m.stop ≤ b.length) ∧
      (matchesLoop eng b fuel p lm).Pairwise
        (fun m₁ m₂ => m₁.start < m₂.start ∧ m₁.stop ≤ m₂.start) := by
  intro fuel
  induction fuel with
  | zero => intro p lm; simp [matchesLoop]
  | succ fuel ih =>
    intro p lm
    unfold matchesLoop
    cases hfa : eng.find_at b p with
    | none => simp
    | some se =>
      obtain ⟨s, e⟩ := se
      dsimp only
      have hse := hwf b p s e hfa
      by_cases hemp : s = e
      · subst hemp
        by_cases hlm : some s = lm
        · rw [if_pos rfl, if_pos hlm]
          obtain ⟨ihb, ihp⟩ := ih (s + 1) lm
          refine ⟨?_, ihp⟩
          intro m hm
          have := ihb m hm
          omega
        · rw [if_pos rfl, if_neg hlm]
          obtain ⟨ihb, ihp⟩ := ih (s + 1) (some s)
          constructor
          · intro m hm
            rcases List.mem_cons.mp hm with rfl | hm'
            · refine ⟨?_, ?_, ?_⟩ <;> dsimp only <;> omega
            · have := ihb m hm'
              omega
          · refine List.Pairwise.cons ?_ ihp
            intro m hm
            have := ihb m hm
            refine ⟨?_, ?_⟩ <;> dsimp only <;> omega
      · rw [if_neg hemp]
        obtain ⟨ihb, ihp⟩ := ih e (some e)
        constructor
        · intro m hm
          rcases List.mem_cons.mp hm with rfl | hm'
          · refine ⟨?_, ?_, ?_⟩ <;> dsimp only <;> omega
          · have := ihb m hm'
            omega
        · refine List.Pairwise.cons ?_ ihp
          intro m hm
          have := ihb m hm
          refine ⟨?_, ?_⟩ <;> dsimp only <;> omega

theorem find_matches_nonempty_iff (eng : RegexEngine) (b : List Nat) :
    RegexMatcher.find_matches eng b ≠ [] ↔ (eng.find_at b 0).isSome := by
  unfold RegexMatcher.find_matches
  rw [show b.length + 2 = (b.length + 1) + 1 from rfl]
  unfold matchesLoop
  cases hfa : eng.find_at b 0 with
  | none => simp
  | some se =>
    obtain ⟨s, e⟩ := se
    dsimp only
    by_cases hemp : s = e
    · subst hemp
      rw [if_pos rfl, if_neg (by simp)]
      simp
    · rw [if_neg hemp]
      simp

/-- C7 counterexample: `Regex::new("")` — matched empty-width at every
position — yields `Match` values with `start = stop`, falsifying the claimed
strict `start < stop` on the one-byte haystack `"a"`. -/
def emptyRegexEngine : RegexEngine :=
  ⟨fun b p => if p ≤ b.length then some (p, p) else none⟩

theorem emptyRegexEngine_WellFormed : emptyRegexEngine.WellFormed := by
  intro b p s e h
  unfold emptyRegexEngine at h
  simp only at h
  split at h
  · rename_i hle
    simp only [Option.some.injEq, Prod.mk.injEq] at h
    omega
  · simp at h

/-- C7 counterexample: on the haystack `"a"` the empty regex produces the
matches `[(0,0), (1,1)]`, which are sorted and non-overlapping but violate
the claim's `start < stop`. -/
theorem c7_counterexample_empty_match :
    RegexMatcher.find_matches emptyRegexEngine [97] = [⟨0, 0⟩, ⟨1, 1⟩] ∧
    ¬ (∀ m ∈ RegexMatcher.find_matches emptyRegexEngine [97], m.start < m.stop) := by
  decide

/-- C7 (amended): for both matcher implementations and every byte slice,
`find_matches` returns ranges sorted strictly ascending by start and mutually
non-overlapping (each match's stop is at most the next match's start), each
satisfying `0 ≤ start ≤ stop ≤ len b` (equality `start = stop` arises for
empty-width regex matches), and `is_match b` holds iff `find_matches b` is
non-empty; for `RegexMatcher` this holds for every well-formed wrapped
engine. -/
theorem c7_matcher_laws (eng : RegexEngine) (hwf : eng.WellFormed) (b : List Nat) :
    ((∀ m ∈ RegexMatcher.find_matches eng b, m.start ≤ m.stop ∧ m.stop ≤ b.length) ∧
     (RegexMatcher.find_matches eng b).Pairwise
       (fun m₁ m₂ => m₁.start < m₂.start ∧ m₁.stop ≤ m₂.start) ∧
     (RegexMatcher.is_match eng b = true ↔ RegexMatcher.find_matches eng b ≠ [])) ∧
    ((∀ m ∈ DummyMatcher.find_matches b, m.start ≤ m.stop ∧ m.stop ≤ b.length) ∧
     (DummyMatcher.find_matches b).Pairwise
       (fun m₁ m₂ => m₁.start < m₂.start ∧ m₁.stop ≤ m₂.start) ∧
     (DummyMatcher.is_match b = true ↔ DummyMatcher.find_matches b ≠ [])) := by
  have hspec := matchesLoop_spec eng hwf b (b.length + 2) 0 none
  refine ⟨⟨?_, hspec.2, ?_⟩, ?_, ?_, ?_⟩
  · intro m hm
    exact (hspec.1 m hm).2
  · rw [find_matches_nonempty_iff]
    unfold RegexMatcher.is_match
    exact Iff.rfl
  · intro m hm
    simp [DummyMatcher.find_matches] at hm
  · simp [DummyMatcher.find_matches]
  · simp [DummyMatcher.is_match, DummyMatcher.find_matches]

/-- C7 witness: the matcher laws applied to the (well-formed) empty-regex
engine on the haystack `"a"`. -/
theorem c7_matcher_laws_witness :
    emptyRegexEngine.WellFormed ∧
    (RegexMatcher.is_match emptyRegexEngine [97] = true ↔
      RegexMatcher.find_matches emptyRegexEngine [97] ≠ []) :=
  ⟨emptyRegexEngine_WellFormed,
   (c7_matcher_laws emptyRegexEngine emptyRegexEngine_WellFormed [97]).1.2.2⟩

/-! ### BufferPool (src/buffer/buffer_pool.rs) -/

/-- The `BufferPool`'s free list (`Mutex<Vec<AsyncLineBuffer>>`); the mutex
only serializes access and is irrelevant to the sequential semantics. -/
abbrev BufferPool := List AsyncLineBuffer

/-- `BufferPool::generate_new`: a fresh buffer sized exactly to the hint —
the `usize::min(6_000_000, size_hint)` cap in the source is commented out. -/
def BufferPool.generate_new (size_hint : Nat) : AsyncLineBuffer :=
  AsyncLineBufferBuilder.build size_hint

/-- `BufferPool::acquire`: the recycling path (`try_get_existing`) is
commented out in the source, so a new buffer is always generated and the
free list is left untouched. -/
def BufferPool.acquire (pool : BufferPool) (size_hint : Nat) :
    AsyncLineBuffer × BufferPool :=
  (BufferPool.generate_new size_hint, pool)

/-- `BufferPool::return_to_pool`: the body (`buf.refresh(); push`) is
commented out in the source; the buffer is dropped, the pool unchanged. -/
def BufferPool.return_to_pool (pool : BufferPool) (_buf : AsyncLineBuffer) :
    BufferPool := pool

/-- `BufferPool::pool_size`: returns the constant 10 in the source (the real
count is commented out). -/
def BufferPool.pool_size (_pool : BufferPool) : Nat := 10

/-- C3 counterexample: a pool holding one idle buffer (of size 5) does not
hand it out — `acquire` builds a fresh buffer of the hinted size 3 instead;
a buffer passed to `return_to_pool` does not become available (the pool stays
empty); and the constructed size is exactly the hint (7), not capped. -/
theorem c3_counterexample_pool_never_recycles :
    ((BufferPool.acquire [AsyncLineBufferBuilder.build 5] 3).1 ≠
      AsyncLineBufferBuilder.build 5) ∧
    (BufferPool.return_to_pool ([] : BufferPool) (AsyncLineBufferBuilder.build 5)
      = ([] : BufferPool)) ∧
    (BufferPool.acquire ([] : BufferPool) 7).1.buffer.length = 7 := by
  refine ⟨by decide, rfl, ?_⟩
  simp [BufferPool.acquire, BufferPool.generate_new, AsyncLineBufferBuilder.build]

/-- C3 (amended): `acquire` ignores the pool entirely — it always constructs
a fresh buffer whose backing size equals the size hint exactly (no recycling,
no cap) and leaves the pool unchanged; the fresh buffer does start reset
(`start = end = 0`, no recorded breaks); and `return_to_pool` discards the
buffer without making it available to any subsequent `acquire`. -/
theorem c3_acquire_always_fresh (pool : BufferPool) (size_hint : Nat) :
    BufferPool.acquire pool size_hint = (BufferPool.generate_new size_hint, pool) ∧
    (BufferPool.generate_new size_hint).buffer.length = size_hint ∧
    (BufferPool.generate_new size_hint).start = 0 ∧
    (BufferPool.generate_new size_hint).endPos = 0 ∧
    (BufferPool.generate_new size_hint).line_break_idxs = [] ∧
    ∀ buf, BufferPool.return_to_pool pool buf = pool := by
  refine ⟨rfl, ?_, rfl, rfl, rfl, fun _ => rfl⟩
  simp [BufferPool.generate_new, AsyncLineBufferBuilder.build]

/-! ### Print messages (src/print.rs) and search statistics (src/search.rs) -/

/-- `PrintableResult` (src/print.rs). -/
structure PrintableResult where
  target_name : String
  line_num : Nat
  text : List Nat
deriving Repr, DecidableEq

/-- `PrintMessage` (src/print.rs). -/
inductive PrintMessage where
  | Printable (p : PrintableResult)
  | EndOfReading (target_name : String)
  | Display (s : String)
deriving Repr, DecidableEq

/-- `ReadStats` (src/search.rs); the two wall-clock `Duration` fields
(`filesystem_walk_dur`, `reader_search_dur`) are omitted (real time), as is
`max_buffer_size` whose value comes from the concrete buffer the line-level
model abstracts away. -/
structure ReadStats where
  total_files_visited : Nat
  skipped_files_non_utf8 : Nat
  non_utf8_bytes_checked : Nat
  lines_matched_count : Nat
  lines_matched_bytes : Nat
  buffers_created : Nat
deriving Repr, DecidableEq

/-- `ReadStats::default()`. -/
def ReadStats.default : ReadStats :=
  { total_files_visited := 0
    skipped_files_non_utf8 := 0
    non_utf8_bytes_checked := 0
    lines_matched_count := 0
    lines_matched_bytes := 0
    buffers_created := 0 }

/-- `ReadStats::fold_in`: elementwise sums. -/
def ReadStats.fold_in (s other : ReadStats) : ReadStats :=
  { total_files_visited := s.total_files_visited + other.total_files_visited
    skipped_files_non_utf8 := s.skipped_files_non_utf8 + other.skipped_files_non_utf8
    non_utf8_bytes_checked := s.non_utf8_bytes_checked + other.non_utf8_bytes_checked
    lines_matched_count := s.lines_matched_count + other.lines_matched_count
    lines_matched_bytes := s.lines_matched_bytes + other.lines_matched_bytes
    buffers_created := s.buffers_created + other.buffers_created }

/-- Whether a contination byte of a UTF-8 sequence is in `[0x80, 0xBF]`. -/
def isContByte (b : Nat) : Bool := 0x80 ≤ b && b ≤ 0xBF

/-- `check_utf8` (src/search.rs): `std::str::from_utf8(bytes).is_ok()` — the
standard UTF-8 validity rules (RFC 3629: no overlongs, no surrogates, at most
U+10FFFF). -/
def isValidUtf8 : List Nat → Bool
  | [] => true
  | b :: rest =>
    if b ≤ 0x7F then isValidUtf8 rest
    else if 0xC2 ≤ b && b ≤ 0xDF then
      match rest with
      | c1 :: r => isContByte c1 && isValidUtf8 r
      | [] => false
    else if b = 0xE0 then
      match rest with
      | c1 :: c2 :: r => (0xA0 ≤ c1 && c1 ≤ 0xBF) && isContByte c2 && isValidUtf8 r
      | _ => false
    else if (0xE1 ≤ b && b ≤ 0xEC) || b = 0xEE || b = 0xEF then
      match rest with
      | c1 :: c2 :: r => isContByte c1 && isContByte c2 && isValidUtf8 r
      | _ => false
    else if b = 0xED then
      match rest with
      | c1 :: c2 :: r => (0x80 ≤ c1 && c1 ≤ 0x9F) && isContByte c2 && isValidUtf8 r
      | _ => false
    else if b = 0xF0 then
      match rest with
      | c1 :: c2 :: c3 :: r =>
        (0x90 ≤ c1 && c1 ≤ 0xBF) && isContByte c2 && isContByte c3 && isValidUtf8 r
      | _ => false
    else if 0xF1 ≤ b && b ≤ 0xF3 then
      match rest with
      | c1 :: c2 :: c3 :: r =>
        isContByte c1 && isContByte c2 && isContByte c3 && isValidUtf8 r
      | _ => false
    else if b = 0xF4 then
      match rest with
      | c1 :: c2 :: c3 :: r =>
        (0x80 ≤ c1 && c1 ≤ 0x8F) && isContByte c2 && isContByte c3 && isValidUtf8 r
      | _ => false
    else false

/-- `BINARY_CHECK_LEN_BYTES` (src/search.rs). -/
def BINARY_CHECK_LEN_BYTES : Nat := 512

/-- The `binary_bytes_checked` accumulator step: a line's length is added
only while the accumulator is still below the threshold (afterwards the line
is not checked and the accumulator frozen). -/
def checkStep (checked : Nat) (line : List Nat) : Nat :=
  if checked < BINARY_CHECK_LEN_BYTES then checked + line.length else checked

/-- The loop of `Searcher::search_via_reader` (src/search.rs), with the
reader abstracted by the list of line texts `read_line` yields (proven
elsewhere to be exactly the source's lines).  Arguments: the matcher's
`is_match`, the target name, the remaining lines, the next 1-based line
number, the `binary_bytes_checked` accumulator, and the stats so far.
Returns the final stats and the `PrintMessage`s sent, in order.  On the
first invalid-UTF-8 line inside the sampling window the function returns at
once — note without sending `EndOfReading`, mirroring the early `return` in
the source. -/
def search_via_lines_loop (m : List Nat → Bool) (name : String) :
    List (List Nat) → Nat → Nat → ReadStats → ReadStats × List PrintMessage
  | [], _, checked, stats =>
    ({ stats with non_utf8_bytes_checked := checked },
     [PrintMessage.EndOfReading name])
  | line :: rest, line_num, checked, stats =>
    if checked < BINARY_CHECK_LEN_BYTES ∧ ¬ isValidUtf8 line then
      ({ stats with
          non_utf8_bytes_checked := checked + line.length
          skipped_files_non_utf8 := 1 }, [])
    else if m line then
      ((search_via_lines_loop m name rest (line_num + 1) (checkStep checked line)
          { stats with
              lines_matched_count := stats.lines_matched_count + 1
              lines_matched_bytes := stats.lines_matched_bytes + line.length }).1,
       PrintMessage.Printable ⟨name, line_num, line⟩ ::
         (search_via_lines_loop m name rest (line_num + 1) (checkStep checked line)
           { stats with
               lines_matched_count := stats.lines_matched_count + 1
               lines_matched_bytes := stats.lines_matched_bytes + line.length }).2)
    else
      search_via_lines_loop m name rest (line_num + 1) (checkStep checked line) stats

/-- `Searcher::search_via_reader` over the line stream of one target:
`total_files_visited` starts at 1, line numbers at 1, the binary-check
accumulator at 0. -/
def search_via_lines (m : List Nat → Bool) (name : String)
    (lines : List (List Nat)) : ReadStats × List PrintMessage :=
  search_via_lines_loop m name lines 1 0
    { ReadStats.default with total_files_visited := 1 }

/-- The `binary_bytes_checked` accumulator after processing the given lines
starting from `c`. -/
def bytesCheckedFrom (c : Nat) (ls : List (List Nat)) : Nat :=
  ls.foldl checkStep c

/-- The accumulator of the binary check after the given lines (from 0). -/
def bytesChecked (ls : List (List Nat)) : Nat := bytesCheckedFrom 0 ls

/-- How many `EndOfReading` messages a message list carries. -/
def countEndOfReading (msgs : List PrintMessage) : Nat :=
  (msgs.filter fun msg =>
    match msg with
    | PrintMessage.EndOfReading _ => true
    | _ => false).length

/-- `Searcher::search_file` (src/search.rs): `File::open` is modelled by
`openResult` — `none` is an open failure (`Err`), `some lines` the line
stream of the opened file.  On failure the function returns
`ReadStats::default()` immediately and sends nothing; otherwise it acquires
a pooled buffer, drives `search_via_reader`, and returns the buffer. -/
def search_file (m : List Nat → Bool) (name : String) (pool : BufferPool)
    (openResult : Option (List (List Nat))) :
    (ReadStats × List PrintMessage) × BufferPool :=
  match openResult with
  | none => ((ReadStats.default, []), pool)
  | some lines =>
    ((search_via_lines m name lines),
     BufferPool.return_to_pool (BufferPool.acquire pool lines.flatten.length).2
       (BufferPool.acquire pool lines.flatten.length).1)

theorem bytesCheckedFrom_mono (ls : List (List Nat)) :
    ∀ c, c ≤ bytesCheckedFrom c ls := by
  induction ls with
  | nil => intro c; exact le_refl c
  | cons l rest ih =>
    intro c
    have h1 : c ≤ checkStep c l := by
      unfold checkStep; split <;> omega
    calc c ≤ checkStep c l := h1
      _ ≤ bytesCheckedFrom (checkStep c l) rest := ih _
      _ = bytesCheckedFrom c (l :: rest) := rfl

theorem countEndOfReading_printables (ps : List PrintableResult) :
    countEndOfReading (ps.map PrintMessage.Printable) = 0 := by
  induction ps with
  | nil => rfl
  | cons p rest ih => simpa [countEndOfReading, List.filter] using ih

theorem countEndOfReading_append (a b : List PrintMessage) :
    countEndOfReading (a ++ b) = countEndOfReading a + countEndOfReading b := by
  simp [countEndOfReading, List.filter_append]

theorem countEndOfReading_cons_printable (p : PrintableResult)
    (xs : List PrintMessage) :
    countEndOfReading (PrintMessage.Printable p :: xs) = countEndOfReading xs := by
  simp [countEndOfReading, List.filter]

/-- When every line checked inside the sampling window is valid UTF-8, the
search loop never aborts: it emits the matched lines' `Printable`s followed
by exactly one `EndOfReading`, and leaves the skip counter and visit counter
of the incoming stats untouched. -/
theorem search_via_lines_loop_no_abort (m : List Nat → Bool) (name : String) :
    ∀ (lines : List (List Nat)) (line_num checked : Nat) (stats : ReadStats),
      (∀ i : Fin lines.length,
        bytesCheckedFrom checked (lines.take i.val) < BINARY_CHECK_LEN_BYTES →
        isValidUtf8 (lines.get i) = true) →
      ∃ ps : List PrintableResult,
        (search_via_lines_loop m name lines line_num checked stats).2 =
          ps.map PrintMessage.Printable ++ [PrintMessage.EndOfReading name] ∧
        (search_via_lines_loop m name lines line_num checked stats).1.skipped_files_non_utf8
          = stats.skipped_files_non_utf8 ∧
        (search_via_lines_loop m name lines line_num checked stats).1.total_files_visited
          = stats.total_files_visited := by
  intro lines
  induction lines with
  | nil =>
    intro ln checked stats _
    exact ⟨[], rfl, rfl, rfl⟩
  | cons line rest ih =>
    intro ln checked stats h
    have hvalid : checked < BINARY_CHECK_LEN_BYTES → isValidUtf8 line = true := by
      intro hc
      have := h ⟨0, by simp⟩ (by simpa [bytesCheckedFrom] using hc)
      simpa using this
    have hnab : ¬ (checked < BINARY_CHECK_LEN_BYTES ∧ ¬ isValidUtf8 line = true) := by
      rintro ⟨hc, hnv⟩
      exact hnv (hvalid hc)
    have htrans : ∀ i : Fin rest.length,
        bytesCheckedFrom (checkStep checked line) (rest.take i.val) <
          BINARY_CHECK_LEN_BYTES →
        isValidUtf8 (rest.get i) = true := by
      intro i hg
      have := h ⟨i.val + 1, Nat.succ_lt_succ i.isLt⟩ (by simpa [bytesCheckedFrom] using hg)
      simpa using this
    unfold search_via_lines_loop
    rw [if_neg hnab]
    by_cases hm : m line
    · rw [if_pos hm]
      obtain ⟨ps, hps, hsk, hvis⟩ := ih (ln + 1) (checkStep checked line)
        { stats with
            lines_matched_count := stats.lines_matched_count + 1
            lines_matched_bytes := stats.lines_matched_bytes + line.length } htrans
      refine ⟨⟨name, ln, line⟩ :: ps, ?_, ?_, ?_⟩
      · simp only [List.map_cons, List.cons_append]
        rw [hps]
      · exact hsk
      · exact hvis
    · rw [if_neg hm]
      exact ih (ln + 1) (checkStep checked line) stats htrans

/-- On the first invalid line inside the sampling window the search loop
returns at once: the result does not depend on the lines after it, the file
is marked skipped, the incoming visit count is preserved, the byte
accumulator records the bytes checked up to and including the bad line, and
no `EndOfReading` is emitted. -/
theorem search_via_lines_loop_abort (m : List Nat → Bool) (name : String) :
    ∀ (pre : List (List Nat)) (bad : List Nat) (rest : List (List Nat))
      (line_num checked : Nat) (stats : ReadStats),
      (∀ i : Fin pre.length,
        bytesCheckedFrom checked (pre.take i.val) < BINARY_CHECK_LEN_BYTES →
        isValidUtf8 (pre.get i) = true) →
      bytesCheckedFrom checked pre < BINARY_CHECK_LEN_BYTES →
      isValidUtf8 bad = false →
      search_via_lines_loop m name (pre ++ bad :: rest) line_num checked stats =
        search_via_lines_loop m name (pre ++ [bad]) line_num checked stats ∧
      (search_via_lines_loop m name (pre ++ bad :: rest) line_num checked stats).1.skipped_files_non_utf8 = 1 ∧
      (search_via_lines_loop m name (pre ++ bad :: rest) line_num checked stats).1.total_files_visited = stats.total_files_visited ∧
      (search_via_lines_loop m name (pre ++ bad :: rest) line_num checked stats).1.non_utf8_bytes_checked = bytesCheckedFrom checked pre + bad.length ∧
      countEndOfReading (search_via_lines_loop m name (pre ++ bad :: rest) line_num checked stats).2 = 0 := by
  intro pre
  induction pre with
  | nil =>
    intro bad rest ln checked stats _ hwin hbad
    have hwin' : checked < BINARY_CHECK_LEN_BYTES := by
      simpa [bytesCheckedFrom] using hwin
    have hab : checked < BINARY_CHECK_LEN_BYTES ∧ ¬ isValidUtf8 bad = true :=
      ⟨hwin', by simp [hbad]⟩
    simp only [List.nil_append]
    unfold search_via_lines_loop
    rw [if_pos hab, if_pos hab]
    refine ⟨rfl, rfl, rfl, ?_, rfl⟩
    simp [bytesCheckedFrom]
  | cons line pre' ih =>
    intro bad rest ln checked stats h hwin hbad
    have hcl : checked < BINARY_CHECK_LEN_BYTES := by
      have h1 : bytesCheckedFrom checked (line :: pre') ≤
          bytesCheckedFrom checked ((line :: pre')) := le_refl _
      have h2 : checked ≤ bytesCheckedFrom checked (line :: pre') :=
        bytesCheckedFrom_mono _ checked
      omega
    have hvalid : isValidUtf8 line = true := by
      have := h ⟨0, by simp⟩ (by simpa [bytesCheckedFrom] using hcl)
      simpa using this
    have hnab : ¬ (checked < BINARY_CHECK_LEN_BYTES ∧ ¬ isValidUtf8 line = true) := by
      rintro ⟨-, hnv⟩
      exact hnv hvalid
    have htrans : ∀ i : Fin pre'.length,
        bytesCheckedFrom (checkStep checked line) (pre'.take i.val) <
          BINARY_CHECK_LEN_BYTES →
        isValidUtf8 (pre'.get i) = true := by
      intro i hg
      have := h ⟨i.val + 1, Nat.succ_lt_succ i.isLt⟩ (by simpa [bytesCheckedFrom] using hg)
      simpa using this
    have hwin' : bytesCheckedFrom (checkStep checked line) pre' <
        BINARY_CHECK_LEN_BYTES := by
      simpa [bytesCheckedFrom] using hwin
    have ihres := ih bad rest (ln + 1) (checkStep checked line)
    have hacc : bytesCheckedFrom (checkStep checked line) pre' + bad.length =
        bytesCheckedFrom checked (line :: pre') + bad.length := by
      simp [bytesCheckedFrom]
    show search_via_lines_loop m name ((line :: pre') ++ bad :: rest) ln checked stats =
        search_via_lines_loop m name ((line :: pre') ++ [bad]) ln checked stats ∧ _
    simp only [List.cons_append]
    unfold search_via_lines_loop
    rw [if_neg hnab, if_neg hnab]
    by_cases hm : m line
    · rw [if_pos hm, if_pos hm]
      obtain ⟨ieq, isk, ivis, iacc, icnt⟩ := ihres
        { stats with
            lines_matched_count := stats.lines_matched_count + 1
            lines_matched_bytes := stats.lines_matched_bytes + line.length }
        htrans hwin' hbad
      refine ⟨?_, ?_, ?_, ?_, ?_⟩
      · rw [ieq]
      · exact isk
      · exact ivis
      · exact iacc
      · rw [countEndOfReading_cons_printable]
        exact icnt
    · rw [if_neg hm, if_neg hm]
      obtain ⟨ieq, isk, ivis, iacc, icnt⟩ := ihres stats htrans hwin' hbad
      exact ⟨ieq, isk, ivis, iacc, icnt⟩

/-- C4 counterexample: a file whose very first line is invalid UTF-8 within
the sampling window (the single byte 0xFF).  The search aborts and sends
nothing at all — in particular zero `EndOfReading` messages, where the claim
requires exactly one. -/
theorem c4_counterexample_binary_abort_sends_no_end_of_reading :
    (search_via_lines (fun _ => false) "t" [[255]]).2 = [] ∧
    countEndOfReading (search_via_lines (fun _ => false) "t" [[255]]).2 = 0 := by
  decide

/-- C4 (amended): for every target whose search is not aborted by the
binary-content check (every line falling inside the 512-byte sampling window
decodes as UTF-8), exactly one `EndOfReading` carrying the target's name is
sent, after every `Printable` for that target (the message list is the
matched lines' `Printable`s followed by the `EndOfReading`); a search aborted
by the binary check sends no `EndOfReading` at all. -/
theorem c4_end_of_reading_exactly_once (m : List Nat → Bool) (name : String)
    (lines : List (List Nat))
    (h : ∀ i : Fin lines.length,
      bytesChecked (lines.take i.val) < BINARY_CHECK_LEN_BYTES →
      isValidUtf8 (lines.get i) = true) :
    ∃ ps : List PrintableResult,
      (search_via_lines m name lines).2 =
        ps.map PrintMessage.Printable ++ [PrintMessage.EndOfReading name] ∧
      countEndOfReading (search_via_lines m name lines).2 = 1 ∧
      (search_via_lines m name lines).2.getLast? =
        some (PrintMessage.EndOfReading name) := by
  obtain ⟨ps, hps, -, -⟩ := search_via_lines_loop_no_abort m name lines 1 0
    { ReadStats.default with total_files_visited := 1 } h
  refine ⟨ps, hps, ?_, ?_⟩
  · show countEndOfReading (search_via_lines m name lines).2 = 1
    rw [show (search_via_lines m name lines).2 =
      (search_via_lines_loop m name lines 1 0
        { ReadStats.default with total_files_visited := 1 }).2 from rfl, hps]
    rw [countEndOfReading_append, countEndOfReading_printables]
    rfl
  · rw [show (search_via_lines m name lines).2 =
      (search_via_lines_loop m name lines 1 0
        { ReadStats.default with total_files_visited := 1 }).2 from rfl, hps]
    exact List.getLast?_concat _

/-- C4 witness: a two-line valid file under a matcher matching everything;
the message stream ends with the single `EndOfReading`. -/
theorem c4_end_of_reading_exactly_once_witness :
    countEndOfReading (search_via_lines (fun _ => true) "t" [[104, 10], [33]]).2 = 1 := by
  obtain ⟨ps, -, hc, -⟩ := c4_end_of_reading_exactly_once (fun _ => true) "t"
    [[104, 10], [33]] (by decide)
  exact hc

/-- C8: while the total number of bytes read is below the 512-byte
threshold every line is checked for UTF-8 validity, and on the first line
that fails within that window the file's search returns immediately: the
result is identical whatever lines would have followed, the file is counted
skipped (`skipped_files_non_utf8 = 1`) yet visited, the checked-byte counter
includes the offending line, and no `EndOfReading` (so no error) escapes;
and a file all of whose window-checked lines are valid is never skipped,
however invalid its lines beyond the threshold are. -/
theorem c8_binary_check_window :
    (∀ (m : List Nat → Bool) (name : String) (pre : List (List Nat))
        (bad : List Nat) (rest : List (List Nat)),
      (∀ i : Fin pre.length,
        bytesChecked (pre.take i.val) < BINARY_CHECK_LEN_BYTES →
        isValidUtf8 (pre.get i) = true) →
      bytesChecked pre < BINARY_CHECK_LEN_BYTES →
      isValidUtf8 bad = false →
      search_via_lines m name (pre ++ bad :: rest) =
        search_via_lines m name (pre ++ [bad]) ∧
      (search_via_lines m name (pre ++ bad :: rest)).1.skipped_files_non_utf8 = 1 ∧
      (search_via_lines m name (pre ++ bad :: rest)).1.total_files_visited = 1 ∧
      (search_via_lines m name (pre ++ bad :: rest)).1.non_utf8_bytes_checked =
        bytesChecked pre + bad.length ∧
      countEndOfReading (search_via_lines m name (pre ++ bad :: rest)).2 = 0) ∧
    (∀ (m : List Nat → Bool) (name : String) (lines : List (List Nat)),
      (∀ i : Fin lines.length,
        bytesChecked (lines.take i.val) < BINARY_CHECK_LEN_BYTES →
        isValidUtf8 (lines.get i) = true) →
      (search_via_lines m name lines).1.skipped_files_non_utf8 = 0 ∧
      (search_via_lines m name lines).1.total_files_visited = 1) := by
  constructor
  · intro m name pre bad rest h hwin hbad
    exact search_via_lines_loop_abort m name pre bad rest 1 0
      { ReadStats.default with total_files_visited := 1 } h hwin hbad
  · intro m name lines h
    obtain ⟨-, -, hsk, hvis⟩ := search_via_lines_loop_no_abort m name lines 1 0
      { ReadStats.default with total_files_visited := 1 } h
    exact ⟨hsk, hvis⟩

set_option maxRecDepth 10000 in
/-- C8 witness: the valid line `"h"` followed by the invalid byte 0xFF and a
line that is never looked at; the file is reported skipped with two bytes
sampled, and dually a file whose only invalid content lies beyond the
threshold is not skipped. -/
theorem c8_binary_check_window_witness :
    (search_via_lines (fun _ => false) "b" ([[104]] ++ [255] :: [[105]])).1.skipped_files_non_utf8 = 1 ∧
    (search_via_lines (fun _ => false) "b" ([[104]] ++ [255] :: [[105]])).1.non_utf8_bytes_checked = 2 ∧
    (search_via_lines (fun _ => false) "g" [List.replicate 600 104, [255]]).1.skipped_files_non_utf8 = 0 := by
  refine ⟨(c8_binary_check_window.1 (fun _ => false) "b" [[104]] [255] [[105]]
      (by decide) (by decide) (by decide)).2.1,
    ?_,
    (c8_binary_check_window.2 (fun _ => false) "g" [List.replicate 600 104, [255]] ?_).1⟩
  · exact (c8_binary_check_window.1 (fun _ => false) "b" [[104]] [255] [[105]]
      (by decide) (by decide) (by decide)).2.2.2.1
  · decide

/-- C10: if opening a discovered file fails, `Searcher::search_file` returns
the all-default `ReadStats` — in particular `total_files_visited = 0` and
`skipped_files_non_utf8 = 0`, so the file is counted neither as visited nor
as skipped — sends no `PrintMessage`, and leaves the buffer pool untouched:
a file-open failure is completely silent at the core's public interface. -/
theorem c10_search_file_open_failure_silent (m : List Nat → Bool) (name : String)
    (pool : BufferPool) :
    search_file m name pool none = ((ReadStats.default, []), pool) ∧
    ReadStats.default.total_files_visited = 0 ∧
    ReadStats.default.skipped_files_non_utf8 = 0 :=
  ⟨rfl, rfl, rfl⟩

/-! ### PrettyPrinter (src/print/printer.rs) -/

/-- What one `PrettyPrinter::print` call writes, abstracted per write:
`header` is the `"\n{name}"` group-header line, `line` one rendered line of a
target (coloring abstracted away), `display` a raw `Display` string. -/
inductive OutputEvent where
  | header (name : String)
  | line (p : PrintableResult)
  | display (s : String)
deriving Repr, DecidableEq

/-- `PrettyPrinter`'s mutable state: the per-target buffer
(`file_to_matches: HashMap<String, Vec<PrintableResult>>`, modelled as an
association list) and `currently_printing_file`. -/
structure PrettyPrinterState where
  file_to_matches : List (String × List PrintableResult)
  currently_printing_file : Option String
deriving Repr, DecidableEq

/-- `HashMap::remove(name)` on the association list. -/
def removeKey (map : List (String × List PrintableResult)) (name : String) :
    List (String × List PrintableResult) :=
  map.filter (fun kv => kv.1 ≠ name)

/-- `self.file_to_matches.remove(name).unwrap_or_default()`. -/
def lookupMatches (map : List (String × List PrintableResult)) (name : String) :
    List PrintableResult :=
  match map.find? (fun kv => kv.1 == name) with
  | some kv => kv.2
  | none => []

/-- `entry(name).or_default().push(p)`. -/
def pushToMap (map : List (String × List PrintableResult)) (name : String)
    (p : PrintableResult) : List (String × List PrintableResult) :=
  if (map.find? (fun kv => kv.1 == name)).isSome then
    map.map (fun kv => if kv.1 == name then (kv.1, kv.2 ++ [p]) else kv)
  else
    map ++ [(name, [p])]

/-- `PrettyPrinter::print_target_results`: remove the target's buffered
results; if any, write the header line then each buffered line. -/
def print_target_results (st : PrettyPrinterState) (name : String) :
    PrettyPrinterState × List OutputEvent :=
  let matches_for_target := lookupMatches st.file_to_matches name
  let st' := { st with file_to_matches := removeKey st.file_to_matches name }
  if matches_for_target.isEmpty then (st', [])
  else (st', OutputEvent.header name :: matches_for_target.map OutputEvent.line)

/-- `PrettyPrinter::print` in grouped mode (`config.group_by_target`,
src/print/printer.rs lines 35-74): a `Printable` whose target is the one
currently streaming prints immediately; when no target is streaming, the
message's target becomes the streaming one (flushing anything buffered for
it) and the line prints; other targets' printables are buffered.
`EndOfReading` of the streaming target ends the stream; of any other target,
flushes that target's buffer immediately. -/
def PrettyPrinter.print_grouped (st : PrettyPrinterState) (message : PrintMessage) :
    PrettyPrinterState × List OutputEvent :=
  match message with
  | PrintMessage.Display msg => (st, [OutputEvent.display msg])
  | PrintMessage.Printable printable =>
    if st.currently_printing_file = none then
      ((print_target_results
          { st with currently_printing_file := some printable.target_name }
          printable.target_name).1,
       (print_target_results
          { st with currently_printing_file := some printable.target_name }
          printable.target_name).2 ++ [OutputEvent.line printable])
    else if st.currently_printing_file = some printable.target_name then
      (st, [OutputEvent.line printable])
    else
      ({ st with file_to_matches :=
          pushToMap st.file_to_matches printable.target_name printable }, [])
  | PrintMessage.EndOfReading target_name =>
    if st.currently_printing_file = some target_name then
      ({ st with currently_printing_file := none }, [])
    else
      print_target_results st target_name

/-- Run the grouped printer over a message sequence (the dedicated printer
thread draining its channel), concatenating everything written. -/
def PrettyPrinter.run_grouped (st : PrettyPrinterState) :
    List PrintMessage → PrettyPrinterState × List OutputEvent
  | [] => (st, [])
  | msg :: rest =>
    ((PrettyPrinter.run_grouped (PrettyPrinter.print_grouped st msg).1 rest).1,
     (PrettyPrinter.print_grouped st msg).2 ++
       (PrettyPrinter.run_grouped (PrettyPrinter.print_grouped st msg).1 rest).2)

/-- The fresh printer state (`PrettyPrinter::new`). -/
def PrettyPrinter.initState : PrettyPrinterState := ⟨[], none⟩

/-- Whether an output event belongs to the named target (its header or one of
its lines). -/
def belongsTo (name : String) : OutputEvent → Bool
  | OutputEvent.header n => n == name
  | OutputEvent.line p => p.target_name == name
  | OutputEvent.display _ => false

/-- A target's events form one contiguous block of the output: after the
first run of its events ends, none of its events appear again. -/
def isContiguousBlock (evts : List OutputEvent) (name : String) : Bool :=
  (((evts.dropWhile (fun e => ! belongsTo name e)).dropWhile
      (belongsTo name)).all (fun e => ! belongsTo name e))

/-- C5 counterexample: in grouped mode, with target A streaming (its first
`Printable` arrived while nothing was being printed), target B's complete
block is flushed by `EndOfReading B` in the middle of A's lines; A's output
is not contiguous, and A never even gets a header line.  The message
interleaving respects each target's own order (A: line 1, line 2, end; B:
line 1, end). -/
theorem c5_counterexample_interleaved_blocks :
    (PrettyPrinter.run_grouped PrettyPrinter.initState
      [PrintMessage.Printable ⟨"A", 1, [97]⟩,
       PrintMessage.Printable ⟨"B", 1, [98]⟩,
       PrintMessage.EndOfReading "B",
       PrintMessage.Printable ⟨"A", 2, [99]⟩,
       PrintMessage.EndOfReading "A"]).2
    = [OutputEvent.line ⟨"A", 1, [97]⟩,
       OutputEvent.header "B", OutputEvent.line ⟨"B", 1, [98]⟩,
       OutputEvent.line ⟨"A", 2, [99]⟩] ∧
    isContiguousBlock
      (PrettyPrinter.run_grouped PrettyPrinter.initState
        [PrintMessage.Printable ⟨"A", 1, [97]⟩,
         PrintMessage.Printable ⟨"B", 1, [98]⟩,
         PrintMessage.EndOfReading "B",
         PrintMessage.Printable ⟨"A", 2, [99]⟩,
         PrintMessage.EndOfReading "A"]).2 "A" = false ∧
    OutputEvent.header "A" ∉
      (PrettyPrinter.run_grouped PrettyPrinter.initState
        [PrintMessage.Printable ⟨"A", 1, [97]⟩,
         PrintMessage.Printable ⟨"B", 1, [98]⟩,
         PrintMessage.EndOfReading "B",
         PrintMessage.Printable ⟨"A", 2, [99]⟩,
         PrintMessage.EndOfReading "A"]).2 := by
  decide

/-- Every buffered printable is filed under its own target name. -/
def PrinterMapWF (st : PrettyPrinterState) : Prop :=
  ∀ kv ∈ st.file_to_matches, ∀ p ∈ kv.2, p.target_name = kv.1

instance (st : PrettyPrinterState) : Decidable (PrinterMapWF st) := by
  unfold PrinterMapWF; infer_instance

theorem print_target_results_fst (st : PrettyPrinterState) (name : String) :
    (print_target_results st name).1 =
      { st with file_to_matches := removeKey st.file_to_matches name } := by
  unfold print_target_results
  dsimp only
  split <;> rfl

theorem lookupMatches_of_WF (st : PrettyPrinterState) (h : PrinterMapWF st)
    (name : String) :
    ∀ p ∈ lookupMatches st.file_to_matches name, p.target_name = name := by
  intro p hp
  unfold lookupMatches at hp
  cases hf : st.file_to_matches.find? (fun kv => kv.1 == name) with
  | none => rw [hf] at hp; simp at hp
  | some kv =>
    rw [hf] at hp
    have hkv := List.mem_of_find?_eq_some hf
    have hpred := List.find?_some hf
    have hkveq : kv.1 = name := by simpa using hpred
    have := h kv hkv p hp
    rw [this]
    exact hkveq

theorem removeKey_WF (st : PrettyPrinterState) (h : PrinterMapWF st) (name : String) :
    PrinterMapWF { st with file_to_matches := removeKey st.file_to_matches name } := by
  intro kv hkv
  exact h kv (List.mem_of_mem_filter hkv)

theorem pushToMap_WF (st : PrettyPrinterState) (h : PrinterMapWF st)
    (p : PrintableResult) :
    PrinterMapWF
      { st with file_to_matches := pushToMap st.file_to_matches p.target_name p } := by
  intro kv hkv
  unfold pushToMap at hkv
  split at hkv
  · simp only [List.mem_map] at hkv
    obtain ⟨kv0, hkv0, hkveq⟩ := hkv
    by_cases hb : (kv0.1 == p.target_name) = true
    · rw [if_pos hb] at hkveq
      subst hkveq
      intro q hq
      simp only [List.mem_append, List.mem_singleton] at hq
      rcases hq with hq | hq
      · exact h kv0 hkv0 q hq
      · subst hq
        exact (eq_of_beq hb).symm
    · rw [if_neg hb] at hkveq
      subst hkveq
      exact h kv0 hkv0
  · simp only [List.mem_append, List.mem_singleton] at hkv
    rcases hkv with hkv | hkv
    · exact h kv hkv
    · subst hkv
      intro q hq
      simp only [List.mem_singleton] at hq
      subst hq
      rfl

/-- C5 (amended): in grouped mode the printer's buffered flushes are
contiguous, but the streaming target's output need not be.  Precisely: the
per-target buffer invariant is preserved by every message; and the output of
an `EndOfReading` for a target that is not currently streaming — the flush of
that target's buffered block — is either empty or exactly one header line
followed by that target's buffered lines and nothing else (and since
`run_grouped` concatenates the per-message outputs in order, that flushed
block is one contiguous region of the rendered output).  The target that is
streaming prints its lines immediately and without a header, and other
targets' flushed blocks may land between them, as the counterexample shows. -/
theorem c5_flush_blocks_contiguous (st : PrettyPrinterState) (msg : PrintMessage)
    (name : String) (h : PrinterMapWF st) :
    PrinterMapWF (PrettyPrinter.print_grouped st msg).1 ∧
    (st.currently_printing_file ≠ some name →
      (PrettyPrinter.print_grouped st (PrintMessage.EndOfReading name)).2 = [] ∨
      ∃ ps : List PrintableResult,
        (PrettyPrinter.print_grouped st (PrintMessage.EndOfReading name)).2 =
          OutputEvent.header name :: ps.map OutputEvent.line ∧
        ∀ p ∈ ps, p.target_name = name) := by
  constructor
  · cases msg with
    | Display s => exact h
    | Printable printable =>
      unfold PrettyPrinter.print_grouped
      dsimp only
      by_cases hc : st.currently_printing_file = none
      · rw [if_pos hc]
        show PrinterMapWF (print_target_results _ _).1
        rw [print_target_results_fst]
        exact removeKey_WF _ h _
      · rw [if_neg hc]
        by_cases hc2 : st.currently_printing_file = some printable.target_name
        · rw [if_pos hc2]
          exact h
        · rw [if_neg hc2]
          exact pushToMap_WF st h printable
    | EndOfReading target_name =>
      unfold PrettyPrinter.print_grouped
      dsimp only
      by_cases hc : st.currently_printing_file = some target_name
      · rw [if_pos hc]
        exact h
      · rw [if_neg hc]
        rw [print_target_results_fst]
        exact removeKey_WF _ h _
  · intro hne
    unfold PrettyPrinter.print_grouped
    dsimp only
    rw [if_neg hne]
    unfold print_target_results
    dsimp only
    by_cases hemp : (lookupMatches st.file_to_matches name).isEmpty
    · rw [if_pos hemp]
      exact Or.inl rfl
    · rw [if_neg hemp]
      exact Or.inr ⟨lookupMatches st.file_to_matches name, rfl,
        lookupMatches_of_WF st h name⟩

/-- C5 witness: the flush property applied to a concrete state — target A is
streaming, one line is buffered for B, and `EndOfReading B` flushes exactly
B's header and line. -/
theorem c5_flush_blocks_contiguous_witness :
    (PrettyPrinter.print_grouped
        (⟨[("B", [⟨"B", 1, [98]⟩])], some "A"⟩ : PrettyPrinterState)
        (PrintMessage.EndOfReading "B")).2 = [] ∨
    ∃ ps : List PrintableResult,
      (PrettyPrinter.print_grouped
          (⟨[("B", [⟨"B", 1, [98]⟩])], some "A"⟩ : PrettyPrinterState)
          (PrintMessage.EndOfReading "B")).2 =
        OutputEvent.header "B" :: ps.map OutputEvent.line ∧
      ∀ p ∈ ps, p.target_name = "B" :=
  (c5_flush_blocks_contiguous
    (⟨[("B", [⟨"B", 1, [98]⟩])], some "A"⟩ : PrettyPrinterState)
    (PrintMessage.EndOfReading "B") "B" (by decide)).2 (by decide)

/-! ### WalkerWorker (src/walker_worker.rs) -/

/-- The file-system oracle the walker consults for a path.  `dirKind none`
is a directory whose `read_dir` fails (e.g. unreadable). -/
inductive PathKind where
  | fileKind
  | dirKind (children : Option (List String))
  | otherKind
deriving Repr, DecidableEq

/-- `WorkMessage` (src/walker_worker.rs). -/
inductive WorkMessage where
  | Visit (path : String)
  | Quit
deriving Repr, DecidableEq

/-- The observable state of the walker's world: the shared FIFO message
queue, the `work_pending` counter, and the paths handed to the work
handler so far. -/
structure WalkerState where
  queue : List WorkMessage
  work_pending : Nat
  handled : List String
deriving Repr, DecidableEq

/-- The `fetch_sub(1)` tail of the `Visit` arm of
`WalkerWorker::start_working`: decrement the pending count; the worker that
saw it hit 1 pushes `Quit` and returns (the Bool is "worker returned"). -/
def walker_retire (st : WalkerState) : WalkerState × Bool :=
  if st.work_pending = 1 then
    ({ st with work_pending := 0, queue := st.queue ++ [WorkMessage.Quit] }, true)
  else
    ({ st with work_pending := st.work_pending - 1 }, false)

/-- One iteration of `WalkerWorker::start_working`'s loop: pop the next
message (an empty queue just yields and loops); a `Visit` of a file hands
the path to the work handler, of a readable directory bumps `work_pending`
by the child count and enqueues the children, of an unreadable directory
panics — the source's `path.read_dir().await.unwrap()` — modelled as
`Except.error`; a `Quit` is re-broadcast and the worker returns. -/
def worker_step (fs : String → PathKind) (st : WalkerState) :
    Except String (WalkerState × Bool) :=
  match st.queue with
  | [] => Except.ok (st, false)
  | msg :: rest =>
    match msg with
    | WorkMessage.Quit =>
      Except.ok ({ st with queue := rest ++ [WorkMessage.Quit] }, true)
    | WorkMessage.Visit path =>
      match fs path with
      | PathKind.fileKind =>
        Except.ok (walker_retire
          { st with queue := rest, handled := st.handled ++ [path] })
      | PathKind.dirKind none =>
        Except.error "called unwrap on an Err value: read_dir failed"
      | PathKind.dirKind (some children) =>
        Except.ok (walker_retire
          { st with
              queue := rest ++ children.map WorkMessage.Visit
              work_pending := st.work_pending + children.length })
      | PathKind.otherKind =>
        Except.ok (walker_retire { st with queue := rest })

/-- Drive one worker until it returns, panics, or the step budget runs out. -/
def worker_run (fs : String → PathKind) :
    Nat → WalkerState → Except String WalkerState
  | 0, st => Except.ok st
  | n + 1, st =>
    match worker_step fs st with
    | Except.error e => Except.error e
    | Except.ok (st', true) => Except.ok st'
    | Except.ok (st', false) => worker_run fs n st'

/-- `WorkerPool::spawn`: the queue starts with a `Visit` of the root and the
pending count at 1. -/
def spawn_initial (root : String) : WalkerState :=
  ⟨[WorkMessage.Visit root], 1, []⟩

/-- C2 failing input: root `r` containing file `a` and unreadable
subdirectory `bad`. -/
def unreadableTreeFs : String → PathKind := fun p =>
  if p = "r" then PathKind.dirKind (some ["a", "bad"])
  else if p = "a" then PathKind.fileKind
  else if p = "bad" then PathKind.dirKind none
  else PathKind.otherKind

/-- The same tree with `bad` replaced by readable file `b`. -/
def readableTreeFs : String → PathKind := fun p =>
  if p = "r" then PathKind.dirKind (some ["a", "b"])
  else if p = "a" then PathKind.fileKind
  else if p = "b" then PathKind.fileKind
  else PathKind.otherKind

/-- C2: evaluating `WalkerWorker::start_working` on the failing input.  On
the readable variant of the tree the crawl hands both files to the handler,
drives `work_pending` to exactly 0 and the worker returns after
broadcasting `Quit` — but on the tree whose subdirectory is unreadable the
worker panics at `read_dir().unwrap()` after handling only `a`: the crawl
aborts instead of skipping the unreadable directory as the claim (and spec
§4.4) requires. -/
theorem c2_unreadable_directory_panics_crawl :
    worker_run unreadableTreeFs 10 (spawn_initial "r") =
      Except.error "called unwrap on an Err value: read_dir failed" ∧
    worker_run readableTreeFs 10 (spawn_initial "r") =
      Except.ok ⟨[WorkMessage.Quit], 0, ["a", "b"]⟩ :=
  ⟨rfl, rfl⟩

/-! ### Panic on read error in `AsyncLineBuffer::fill` (C6) -/

/-- `AsyncLineBuffer::fill`'s treatment of the reader's `io::Result`: the
source unwraps it with `.expect("Unable to read from reader.")`, so an
`Err` from `read` panics the process — modelled as `Except.error` carrying
the panic message; an `Ok` chunk proceeds exactly as `fill`. -/
def fill_io (lb : AsyncLineBuffer) (readResult : Except String (List Nat)) :
    Except String (AsyncLineBuffer × Bool) :=
  match readResult with
  | Except.error _ => Except.error "Unable to read from reader."
  | Except.ok bytes =>
    Except.ok ((lb.fill bytes.length bytes).1, (lb.fill bytes.length bytes).2.2)

/-- C6: an I/O error while reading an already-open source is NOT absorbed:
`fill` panics (the `expect`), aborting the process, for every buffer state
and every error — while a successful read of any chunk proceeds normally.
This contradicts the claim's "an I/O error while reading a source ... is
either absorbed into statistics or collected into a summary value". -/
theorem c6_fill_panics_on_read_error :
    (∀ (lb : AsyncLineBuffer) (e : String),
      fill_io lb (Except.error e) = Except.error "Unable to read from reader.") ∧
    (∀ (lb : AsyncLineBuffer) (bytes : List Nat),
      ∃ r, fill_io lb (Except.ok bytes) = Except.ok r) :=
  ⟨fun _ _ => rfl, fun lb bytes => ⟨_, rfl⟩⟩

end Toygrep
